import Mathlib

/-!
Shallow embedding of the Ricochet-Robots puzzle engine from `src/app.ts`
(the full game version: board generation, slide engine, session state).

Directions are encoded as in the source: `UP = 0`, `RIGHT = 1`, `DOWN = 2`,
`LEFT = 3`, with displacement arrays `dr = [-1, 0, 1, 0]` and
`dc = [0, 1, 0, -1]`.  The 16×16 board is a function from coordinates to
cells; JavaScript in-place mutation becomes functional update.  The
unbounded rejection-sampling loops (`getFreeCell`, the L-shape placement)
are embedded with explicit fuel, returning `Option`; `Math.random()` is an
explicit stream of naturals, scaled by `% k` where the source scales by
`Math.floor(random * k)`.
-/

namespace RicochetRobots

/-- The four piece colors, in the order of the source's `COLORS` array. -/
inductive Color
  | blue
  | red
  | green
  | yellow
deriving DecidableEq, Repr

/-- Occupancy of a cell: the source's `GamePieceState | null | "BLOCKED"`
union on the `piece` field, with the piece object abstracted to its color
(locations are tracked in the `pieces` map). -/
inductive Occ
  | empty
  | blocked
  | occ (c : Color)
deriving DecidableEq, Repr

/-- A board cell (`GameCellState`): four border flags indexed by direction,
and the occupancy of the cell. -/
structure Cell where
  borders : Fin 4 → Bool
  piece : Occ

instance : DecidableEq Cell := fun a b =>
  decidable_of_iff (a.borders = b.borders ∧ a.piece = b.piece)
    (by cases a; cases b; simp)

/-- The playing grid: `board[row][col]`, a 16×16 array of cells. -/
abbrev Grid := Fin 16 → Fin 16 → Cell

/-- Row displacement per direction (`dr = [-1, 0, 1, 0]`). -/
def dr (d : Fin 4) : Int :=
  if d = 0 then -1 else if d = 1 then 0 else if d = 2 then 1 else 0

/-- Column displacement per direction (`dc = [0, 1, 0, -1]`). -/
def dc (d : Fin 4) : Int :=
  if d = 0 then 0 else if d = 1 then 1 else if d = 2 then 0 else -1

/-- Functional update of one cell of the grid. -/
def setCell (g : Grid) (r c : Fin 16) (x : Cell) : Grid :=
  fun r' c' => if r' = r ∧ c' = c then x else g r' c'

/-- Bounds-checked cell access (`board[row][col]` with JavaScript
out-of-bounds access modeled as `none`). -/
def getCell (g : Grid) (r c : Int) : Option Cell :=
  if h : 0 ≤ r ∧ r < 16 ∧ 0 ≤ c ∧ c < 16 then
    some (g ⟨r.toNat, by omega⟩ ⟨c.toNat, by omega⟩)
  else none

/-- Set one border flag of one cell to `true`, leaving everything else. -/
def setBorderTrue (g : Grid) (r c : Fin 16) (d : Fin 4) : Grid :=
  setCell g r c
    { borders := fun e => if e = d then true else (g r c).borders e,
      piece := (g r c).piece }

/-- The source's `addBorder`: set border `dir` of `(row, col)` and, when the
neighbor in that direction is in bounds, the mirrored border of the
neighbor.  Coordinates are naturals; out-of-range coordinates (which never
occur at the call sites) leave the grid unchanged. -/
def addBorder (g : Grid) (row col : Nat) (d : Fin 4) : Grid :=
  if h : row < 16 ∧ col < 16 then
    let g1 := setBorderTrue g ⟨row, h.1⟩ ⟨col, h.2⟩ d
    if hb : d = 0 ∧ row > 0 then
      setBorderTrue g1 ⟨row - 1, by omega⟩ ⟨col, h.2⟩ 2
    else if hb : d = 2 ∧ row < 15 then
      setBorderTrue g1 ⟨row + 1, by omega⟩ ⟨col, h.2⟩ 0
    else if hb : d = 3 ∧ col > 0 then
      setBorderTrue g1 ⟨row, h.1⟩ ⟨col - 1, by omega⟩ 1
    else if hb : d = 1 ∧ col < 15 then
      setBorderTrue g1 ⟨row, h.1⟩ ⟨col + 1, by omega⟩ 3
    else g1
  else g

/-- The source's `occupied`: `cell.piece !== null || cell.piece === "BLOCKED"`. -/
def occupied (cell : Cell) : Bool :=
  decide (cell.piece ≠ Occ.empty) || decide (cell.piece = Occ.blocked)

/-- The source's `numBorders`: count of set border flags, in loop order. -/
def numBorders (cell : Cell) : Nat :=
  (if cell.borders 0 then 1 else 0) + (if cell.borders 1 then 1 else 0) +
    (if cell.borders 2 then 1 else 0) + (if cell.borders 3 then 1 else 0)

/-- The `COLORS` array. -/
def COLORS : List Color := [Color.blue, Color.red, Color.green, Color.yellow]

/-- A target (`GameTargetState`): a color and a location.  The location is
an `Option` because the source's `getLegalTarget` indexes into a possibly
empty array, producing `undefined` (modeled `none`) when no candidate
exists. -/
structure GameTargetState where
  color : Color
  location : Option (Fin 16 × Fin 16)
deriving DecidableEq, Repr

/-- Row-major list of all board coordinates. -/
def allLocs : List (Fin 16 × Fin 16) :=
  (List.finRange 16).flatMap fun r => (List.finRange 16).map fun c => (r, c)

/-- The candidate target cells of `getLegalTarget`: unoccupied cells with
exactly two borders, in row-major scan order. -/
def targetCandidates (g : Grid) : List (Fin 16 × Fin 16) :=
  allLocs.filter fun p => !occupied (g p.1 p.2) && decide (numBorders (g p.1 p.2) = 2)

/-- The source's `getLegalTarget`, with the two `Math.random()` draws made
explicit: `ra` scales to the color index, `rb` to the candidate index.
Indexing an empty candidate array yields `undefined`, modeled as `none`. -/
def getLegalTarget (g : Grid) (ra rb : Nat) : GameTargetState :=
  let cands := targetCandidates g
  { color := COLORS.getD (ra % 4) Color.blue,
    location := cands.get? (if cands.length = 0 then 0 else rb % cands.length) }

/-- An explicit stream of random naturals standing for `Math.random()`. -/
structure Rng where
  f : Nat → Nat
  ix : Nat

/-- Draw the next raw value from the stream. -/
def Rng.next (r : Rng) : Nat × Rng := (r.f r.ix, { r with ix := r.ix + 1 })

/-- The all-empty grid built by the initialization loop of
`makeGameBoardState`: no borders, every cell empty. -/
def emptyGrid : Grid := fun _ _ => { borders := fun _ => false, piece := Occ.empty }

/-- Overwrite the occupancy of one cell, keeping its borders
(`board[row][col].piece = v`). -/
def setPieceOcc (g : Grid) (r c : Fin 16) (v : Occ) : Grid :=
  setCell g r c { borders := (g r c).borders, piece := v }

/-- The eight `addBorder` calls walling the central 2×2 hub, in source order. -/
def hubBorders (g : Grid) : Grid :=
  addBorder (addBorder (addBorder (addBorder (addBorder (addBorder (addBorder
    (addBorder g 7 7 0) 7 7 3) 7 8 0) 7 8 1) 8 7 3) 8 7 2) 8 8 1) 8 8 2

/-- The grid after hub setup: hub borders added and the four center cells
marked `BLOCKED`. -/
def hubGrid : Grid :=
  setPieceOcc (setPieceOcc (setPieceOcc (setPieceOcc (hubBorders emptyGrid)
    7 7 Occ.blocked) 7 8 Occ.blocked) 8 7 Occ.blocked) 8 8 Occ.blocked

/-- One quadrant of the random edge-border phase: two `Math.random()*6`
draws choose offsets, then `addBorder(row_offset, col, UP)` and
`addBorder(row, col_offset, LEFT)`. -/
def edgeQuadrant (qr qc : Nat) (gr : Grid × Rng) : Grid × Rng :=
  let (a, r1) := gr.2.next
  let (b, r2) := r1.next
  let rowOffset := a % 6 + 1 + qr * 8
  let colOffset := b % 6 + 1 + qc * 8
  (addBorder (addBorder gr.1 rowOffset (qc * 15) 0) (qr * 15) colOffset 3, r2)

/-- The edge-border phase over the four quadrants, in loop order. -/
def edgePhase (gr : Grid × Rng) : Grid × Rng :=
  edgeQuadrant 1 1 (edgeQuadrant 1 0 (edgeQuadrant 0 1 (edgeQuadrant 0 0 gr)))

/-- Border flag of a cell addressed by possibly-out-of-range coordinates
(out of range reads as `false`; never reached at the call sites). -/
def cellBorder (g : Grid) (row col : Int) (d : Fin 4) : Bool :=
  match getCell g row col with
  | none => false
  | some cell => cell.borders d

/-- Whether a cell has any border set (`borders[0] || ... || borders[3]`). -/
def anyBorder (g : Grid) (row col : Int) : Bool :=
  cellBorder g row col 0 || cellBorder g row col 1 ||
    cellBorder g row col 2 || cellBorder g row col 3

/-- The `adjOverlap` check of the L-shape placement: any border on any of
the four adjacent cells, in the `d1 = 0..3` order of the source. -/
def adjOverlap (g : Grid) (row col : Int) : Bool :=
  anyBorder g (row - 1) col || anyBorder g row (col + 1) ||
    anyBorder g (row + 1) col || anyBorder g row (col - 1)

/-- One L-shape placement: the rejection-sampling `while (true)` loop of the
source, bounded by fuel.  Each attempt draws a row, a column and a
direction; on acceptance two `addBorder` calls form the right-angle
corner. -/
def placeL (qr qc : Nat) : Nat → Grid × Rng → Option (Grid × Rng)
  | 0, _ => none
  | fuel + 1, (g, r) =>
    let (a, r1) := r.next
    let (b, r2) := r1.next
    let (dv, r3) := r2.next
    let row : Nat := qr * 8 + a % 7 + 1 - qr
    let col : Nat := qc * 8 + b % 7 + 1 - qc
    let d : Fin 4 := ⟨dv % 4, Nat.mod_lt _ (by decide)⟩
    if adjOverlap g (row : Int) (col : Int) ||
        cellBorder g (row : Int) (col : Int) d ||
        cellBorder g (row : Int) (col : Int) (d + 1) ||
        cellBorder g (row : Int) (col : Int) (d + 2) ||
        cellBorder g (row : Int) (col : Int) (d + 3) then
      placeL qr qc fuel (g, r3)
    else
      some (addBorder (addBorder g row col d) row col (d + 1), r3)

/-- Place `n` L-shapes in one quadrant (`N_LS_PER_QUADRANT = 4`). -/
def placeLs (qr qc : Nat) (fuel : Nat) : Nat → Grid × Rng → Option (Grid × Rng)
  | 0, gr => some gr
  | n + 1, gr => (placeL qr qc fuel gr).bind (placeLs qr qc fuel n)

/-- The full L-shape phase over the four quadrants, in loop order. -/
def lPhase (fuel : Nat) (gr : Grid × Rng) : Option (Grid × Rng) :=
  (((placeLs 0 0 fuel 4 gr).bind (placeLs 0 1 fuel 4)).bind
    (placeLs 1 0 fuel 4)).bind (placeLs 1 1 fuel 4)

/-- The source's `getFreeCell`: resample random coordinates until an
unoccupied cell is found (fuel-bounded). -/
def getFreeCell : Nat → Grid → Rng → Option ((Fin 16 × Fin 16) × Rng)
  | 0, _, _ => none
  | fuel + 1, g, r =>
    let (a, r1) := r.next
    let (b, r2) := r1.next
    let row : Fin 16 := ⟨a % 16, Nat.mod_lt _ (by decide)⟩
    let col : Fin 16 := ⟨b % 16, Nat.mod_lt _ (by decide)⟩
    if occupied (g row col) then getFreeCell fuel g r2 else some ((row, col), r2)

/-- The per-color piece location map (the `pieces` object with each piece
abstracted to its `location`). -/
abbrev Pieces := Color → Fin 16 × Fin 16

/-- Place one piece: sample a free cell, mark it occupied by the color,
record the location. -/
def placePiece (col : Color) (fuel : Nat) (s : Grid × Pieces × Rng) :
    Option (Grid × Pieces × Rng) :=
  match getFreeCell fuel s.1 s.2.2 with
  | none => none
  | some (loc, r2) =>
    some (setPieceOcc s.1 loc.1 loc.2 (Occ.occ col),
      (fun c => if c = col then loc else s.2.1 c), r2)

/-- Place the four pieces in `COLORS` order. -/
def placePieces (fuel : Nat) (s : Grid × Pieces × Rng) : Option (Grid × Pieces × Rng) :=
  (((placePiece Color.blue fuel s).bind (placePiece Color.red fuel)).bind
    (placePiece Color.green fuel)).bind (placePiece Color.yellow fuel)

/-- A move (`MoveAction`): color, source cell, destination cell (the
source's fields `from` and `to`; `from` is a Lean keyword, hence
`fromLoc` / `toLoc`). -/
structure MoveAction where
  color : Color
  fromLoc : Fin 16 × Fin 16
  toLoc : Fin 16 × Fin 16
deriving DecidableEq, Repr

/-- The session state (`GameState`): the board, the piece locations, the
target, the active color, the move history, and the best solution.  The
source's `bestSolution : Array | null` becomes `Option (List MoveAction)`;
note `some []` models the empty array, which is distinct from `none`. -/
structure GameState where
  board : Grid
  pieces : Pieces
  target : GameTargetState
  activeColor : Option Color
  moves : List MoveAction
  bestSolution : Option (List MoveAction)

/-- The per-step blocking test of `getMaxTravelDistance`: the cell being
entered is off-grid, or has a border facing back toward the mover
(`borders[(dir + 2) % 4]`), or is occupied. -/
def slideBlocked (g : Grid) (row col : Int) (d : Fin 4) : Bool :=
  match getCell g row col with
  | none => true
  | some cell => cell.borders (d + 2) || occupied cell

/-- The `for (steps = 1; steps <= N_CELLS; steps++)` loop of
`getMaxTravelDistance`; running past `N_CELLS` steps is the source's
`throw`, modeled as `none`. -/
def mtGo (g : Grid) (row col : Int) (d : Fin 4) : Nat → Nat → Option Nat
  | _, 0 => none
  | steps, fuel + 1 =>
    if slideBlocked g (row + dr d * steps) (col + dc d * steps) d then
      some (steps - 1)
    else mtGo g row col d (steps + 1) fuel

/-- The source's `getMaxTravelDistance`. -/
def getMaxTravelDistance (g : Grid) (loc : Int × Int) (d : Fin 4) : Option Nat :=
  mtGo g loc.1 loc.2 d 1 16

/-- The source's `executeMove`: record the new piece location, clear the
occupancy of the source cell, then write the occupancy of the destination
cell (UI updates are out of scope). -/
def executeMove (st : GameState) (m : MoveAction) : GameState :=
  { st with
    board := setPieceOcc (setPieceOcc st.board m.fromLoc.1 m.fromLoc.2 Occ.empty)
      m.toLoc.1 m.toLoc.2 (Occ.occ m.color),
    pieces := fun c => if c = m.color then m.toLoc else st.pieces c }

/-- The inverted move built inline by the `resetRound` / `newRound`
handlers: `{ color, from: move.to, to: move.from }`. -/
def invertMove (m : MoveAction) : MoveAction :=
  { color := m.color, fromLoc := m.toLoc, toLoc := m.fromLoc }

/-- Session events: piece selection (`pointerdown`), a direction key, the
`resetRound` button, and the `newRound` button (whose target draw consumes
two random values, carried in the event). -/
inductive Ev
  | select (c : Color)
  | key (d : Fin 4)
  | reset
  | newRound (ra rb : Nat)
deriving DecidableEq, Repr

/-- Whether an event is a slide-phase event (selection or key press). -/
def isSlideEv : Ev → Bool
  | Ev.select _ => true
  | Ev.key _ => true
  | _ => false

/-- Whether an event is the `newRound` button. -/
def isNewRoundEv : Ev → Bool
  | Ev.newRound _ _ => true
  | _ => false

/-- The keydown handler body (for a direction key): with an active color,
compute the travel distance, execute the move, push it onto the history,
and on target completion update the best solution and clear the active
color.  The unreachable `none` from `getMaxTravelDistance` and an
out-of-bounds destination leave the state unchanged. -/
def stepKey (st : GameState) (d : Fin 4) : GameState :=
  match st.activeColor with
  | none => st
  | some col =>
    let p := st.pieces col
    match getMaxTravelDistance st.board ((p.1 : Int), (p.2 : Int)) d with
    | none => st
    | some k =>
      let nr : Int := (p.1 : Int) + dr d * k
      let nc : Int := (p.2 : Int) + dc d * k
      if h : 0 ≤ nr ∧ nr < 16 ∧ 0 ≤ nc ∧ nc < 16 then
        let dest : Fin 16 × Fin 16 := (⟨nr.toNat, by omega⟩, ⟨nc.toNat, by omega⟩)
        let m : MoveAction := { color := col, fromLoc := p, toLoc := dest }
        let st1 := executeMove st m
        let st2 := { st1 with moves := st1.moves ++ [m] }
        if st2.target.location = some dest ∧ st2.target.color = col then
          { st2 with
            bestSolution :=
              match st2.bestSolution with
              | none => some st2.moves
              | some l => if l.length > st2.moves.length then some st2.moves else some l,
            activeColor := none }
        else st2
      else st

/-- The rollback loop shared by `resetRound` and `newRound`: invert and
undo the last move until the history is empty (fuel is the initial history
length, which the loop decrements). -/
def rollbackGo : Nat → GameState → GameState
  | 0, st => st
  | n + 1, st =>
    match st.moves.getLast? with
    | none => st
    | some m =>
      rollbackGo n { executeMove st (invertMove m) with moves := st.moves.dropLast }

/-- Undo the whole move history. -/
def rollback (st : GameState) : GameState := rollbackGo st.moves.length st

/-- Replay a list of moves in order (the best-solution replay of `newRound`). -/
def replay (st : GameState) : List MoveAction → GameState
  | [] => st
  | m :: ms => replay (executeMove st m) ms

/-- One session event step: `select` sets the active color unconditionally;
`key` runs the keydown handler; `reset` rolls back the history and clears
the active color; `newRound` rolls back, replays the best solution when it
is non-null (the truthiness test — note the empty array is truthy), sets
the best solution to the EMPTY ARRAY (`some []`, not `none`), clears the
active color and draws a fresh target. -/
def step (st : GameState) : Ev → GameState
  | Ev.select c => { st with activeColor := some c }
  | Ev.key d => stepKey st d
  | Ev.reset => { rollback st with activeColor := none }
  | Ev.newRound ra rb =>
    let st1 := rollback st
    let st2 := (match st1.bestSolution with
      | some l => replay st1 l
      | none => st1)
    { st2 with
      bestSolution := some []
      activeColor := none
      target := getLegalTarget st2.board ra rb }

/-- Run a list of session events from a state. -/
def runEvents (st : GameState) : List Ev → GameState
  | [] => st
  | e :: es => runEvents (step st e) es

/-- The source's `makeGameBoardState` (full game version): hub, edge
borders, L-shapes, pieces, target; `activeColor = null`, `moves = []`,
`bestSolution = null`. -/
def makeGameBoardState (fuel : Nat) (r0 : Rng) : Option GameState :=
  match lPhase fuel (edgePhase (hubGrid, r0)) with
  | none => none
  | some (g2, r2) =>
    match placePieces fuel (g2, (fun _ => ((0 : Fin 16), (0 : Fin 16))), r2) with
    | none => none
    | some (g3, ps, r3) =>
      let (a, r4) := r3.next
      let (b, _) := r4.next
      some { board := g3, pieces := ps, target := getLegalTarget g3 a b,
             activeColor := none, moves := [], bestSolution := none }

/-- The in-bounds neighbor of a cell in a direction, when it exists. -/
def neighborOf (r c : Fin 16) (d : Fin 4) : Option (Fin 16 × Fin 16) :=
  let nr : Int := (r : Int) + dr d
  let nc : Int := (c : Int) + dc d
  if h : 0 ≤ nr ∧ nr < 16 ∧ 0 ≤ nc ∧ nc < 16 then
    some (⟨nr.toNat, by omega⟩, ⟨nc.toNat, by omega⟩)
  else none

/-- Wall symmetry: a cell has a border on side `d` exactly when its
in-bounds neighbor in direction `d` has the border on the opposite side. -/
def SymBoard (g : Grid) : Prop :=
  ∀ (r c : Fin 16) (d : Fin 4) (p : Fin 16 × Fin 16),
    neighborOf r c d = some p → (g r c).borders d = (g p.1 p.2).borders (d + 2)

/-- The four hub cells (the central 2×2 block). -/
def hubLocs : List (Fin 16 × Fin 16) := [(7, 7), (7, 8), (8, 7), (8, 8)]

/-- Coherence of the board occupancy before piece placement: no cell holds
a piece, and the four hub cells are blocked. -/
def BaseOk (g : Grid) : Prop :=
  (∀ r c : Fin 16, (g r c).piece = Occ.empty ∨ (g r c).piece = Occ.blocked) ∧
    (∀ p ∈ hubLocs, (g p.1 p.2).piece = Occ.blocked)

/-- Coherence of board occupancy and the piece map during placement:
every already-placed color sits where the map says, every piece-occupied
cell belongs to a placed color at the mapped location, and the hub is
blocked. -/
def PlacedOk (g : Grid) (ps : Pieces) (placed : List Color) : Prop :=
  (∀ col ∈ placed, (g (ps col).1 (ps col).2).piece = Occ.occ col) ∧
    (∀ (r c : Fin 16) col, (g r c).piece = Occ.occ col → col ∈ placed ∧ ps col = (r, c)) ∧
    (∀ p ∈ hubLocs, (g p.1 p.2).piece = Occ.blocked)

/-- Coherence of a session state: the board cell under every piece holds
that piece, every piece-occupied cell is the mapped location of its color,
and the hub cells are blocked. -/
def PiecesOk (st : GameState) : Prop := PlacedOk st.board st.pieces COLORS

/-- A step-preserved wall-phase relation: the second grid is symmetric
whenever the first is, and the occupancy fields agree pointwise. -/
def WallStep (g g' : Grid) : Prop :=
  (SymBoard g → SymBoard g') ∧ ∀ a b : Fin 16, (g' a b).piece = (g a b).piece

/-- A concrete random stream under which `makeGameBoardState` succeeds:
quadrant edge offsets, then first-try-accepted L-shape draws, then free
piece cells, then the target draws. -/
def wList : List Nat :=
  [2, 2, 2, 2, 2, 2, 2, 2,
   0, 4, 0, 4, 0, 0, 4, 4, 0, 2, 2, 0,
   0, 5, 0, 4, 1, 0, 4, 5, 0, 2, 3, 0,
   1, 0, 0, 5, 0, 0, 1, 4, 0, 5, 4, 0,
   1, 3, 0, 5, 1, 0, 5, 5, 0, 1, 6, 0,
   0, 0, 0, 1, 0, 6, 0, 7,
   0, 0]

/-- The random stream built from `wList` (zero past its end). -/
def wRng : Rng := { f := fun n => wList.getD n 0, ix := 0 }

/-- A small concrete session state: the blue piece at `(0, 0)` on an
otherwise empty board (the other pieces parked on row 5), blue active,
empty history. -/
def c1St : GameState :=
  { board := setPieceOcc (setPieceOcc (setPieceOcc (setPieceOcc emptyGrid
      0 0 (Occ.occ Color.blue)) 5 5 (Occ.occ Color.red)) 5 6 (Occ.occ Color.green))
      5 7 (Occ.occ Color.yellow),
    pieces := fun c => match c with
      | Color.blue => (0, 0)
      | Color.red => (5, 5)
      | Color.green => (5, 6)
      | Color.yellow => (5, 7),
    target := { color := Color.blue, location := none },
    activeColor := some Color.blue,
    moves := [],
    bestSolution := none }

/-- A board with a two-border pocket at `(0, 15)` (the mirrored borders
fall off-grid, so only that cell gains borders). -/
def c2Board : Grid := addBorder (addBorder emptyGrid 0 15 0) 0 15 1

/-- A concrete session state for exercising `newRound`: pocket at
`(0, 15)`, blue at `(0, 0)` with a clear run along row 0. -/
def c2St : GameState :=
  { board := setPieceOcc (setPieceOcc (setPieceOcc (setPieceOcc c2Board
      0 0 (Occ.occ Color.blue)) 5 5 (Occ.occ Color.red)) 5 6 (Occ.occ Color.green))
      5 7 (Occ.occ Color.yellow),
    pieces := fun c => match c with
      | Color.blue => (0, 0)
      | Color.red => (5, 5)
      | Color.green => (5, 6)
      | Color.yellow => (5, 7),
    target := { color := Color.blue, location := none },
    activeColor := none,
    moves := [],
    bestSolution := none }

/-- A board whose only unoccupied two-border cell is `(1, 5)`. -/
def c8grid : Grid := addBorder (addBorder emptyGrid 1 5 0) 1 5 1

/-- A concrete state with a stored one-move best solution. -/
def c9St : GameState :=
  { c1St with
    bestSolution := some [{ color := Color.blue, fromLoc := (0, 0), toLoc := (0, 1) }] }

/-- A zero-distance move of the blue piece on its own cell. -/
def mvZero : MoveAction :=
  { color := Color.blue, fromLoc := (0, 0), toLoc := (0, 0) }

/-- The blue piece's full slide along row 0 to the right wall. -/
def mvSlide : MoveAction :=
  { color := Color.blue, fromLoc := (0, 0), toLoc := (0, 15) }

/-! ### Basic lemmas about cell updates -/

theorem setCell_same (g : Grid) (r c : Fin 16) (x : Cell) : setCell g r c x r c = x := by
  simp [setCell]

theorem setCell_ne (g : Grid) (r c : Fin 16) (x : Cell) {r' c' : Fin 16}
    (h : ¬(r' = r ∧ c' = c)) : setCell g r c x r' c' = g r' c' := by
  simp only [setCell, if_neg h]

theorem setBorderTrue_piece (g : Grid) (r c : Fin 16) (d : Fin 4) (a b : Fin 16) :
    ((setBorderTrue g r c d) a b).piece = (g a b).piece := by
  by_cases h : a = r ∧ b = c
  · obtain ⟨rfl, rfl⟩ := h
    simp [setBorderTrue, setCell_same]
  · simp [setBorderTrue, setCell_ne _ _ _ _ h]

theorem setBorderTrue_borders (g : Grid) (r c : Fin 16) (d : Fin 4) (a b : Fin 16) (e : Fin 4) :
    ((setBorderTrue g r c d) a b).borders e =
      ((g a b).borders e || decide (a = r ∧ b = c ∧ e = d)) := by
  by_cases h : a = r ∧ b = c
  · obtain ⟨rfl, rfl⟩ := h
    simp only [setBorderTrue, setCell_same]
    by_cases he : e = d <;> simp [he]
  · rw [setBorderTrue, setCell_ne _ _ _ _ h]
    have : ¬(a = r ∧ b = c ∧ e = d) := fun hh => h ⟨hh.1, hh.2.1⟩
    simp [this]

theorem setPieceOcc_borders (g : Grid) (r c : Fin 16) (v : Occ) (a b : Fin 16) :
    ((setPieceOcc g r c v) a b).borders = (g a b).borders := by
  by_cases h : a = r ∧ b = c
  · obtain ⟨rfl, rfl⟩ := h
    simp [setPieceOcc, setCell_same]
  · simp [setPieceOcc, setCell_ne _ _ _ _ h]

theorem setPieceOcc_piece_self (g : Grid) (r c : Fin 16) (v : Occ) :
    ((setPieceOcc g r c v) r c).piece = v := by
  simp [setPieceOcc, setCell_same]

theorem setPieceOcc_piece_ne (g : Grid) (r c : Fin 16) (v : Occ) {a b : Fin 16}
    (h : ¬(a = r ∧ b = c)) : ((setPieceOcc g r c v) a b).piece = (g a b).piece := by
  simp [setPieceOcc, setCell_ne _ _ _ _ h]

/-! ### Direction and neighbor lemmas -/

theorem dr_opp : ∀ d : Fin 4, dr (d + 2) = -dr d := by decide

theorem dc_opp : ∀ d : Fin 4, dc (d + 2) = -dc d := by decide

theorem dir_vec_ne_zero : ∀ d : Fin 4, ¬(dr d = 0 ∧ dc d = 0) := by decide

theorem fin4_add_two_inj : ∀ e d : Fin 4, e + 2 = d + 2 → e = d := by decide

theorem fin4_add_two_two : ∀ d : Fin 4, d + 2 + 2 = d := by decide

theorem neighborOf_eq_some_iff {r c : Fin 16} {d : Fin 4} {p : Fin 16 × Fin 16} :
    neighborOf r c d = some p ↔
      ((p.1 : Int) = (r : Int) + dr d ∧ (p.2 : Int) = (c : Int) + dc d) := by
  obtain ⟨p1, p2⟩ := p
  simp only [neighborOf]
  split
  case isTrue h =>
    simp only [Option.some_inj, Prod.mk.injEq, Prod.fst, Prod.snd]
    constructor
    · rintro ⟨h1, h2⟩
      rw [← h1, ← h2]
      constructor <;> simp <;> omega
    · rintro ⟨h1, h2⟩
      have hv1 : (p1 : Nat) = ((r : Int) + dr d).toNat := by omega
      have hv2 : (p2 : Nat) = ((c : Int) + dc d).toNat := by omega
      constructor <;> (apply Fin.ext; simp [hv1, hv2])
  case isFalse h =>
    constructor
    · intro hh
      exact Option.noConfusion hh
    · rintro ⟨h1, h2⟩
      exfalso
      have hb1 : (p1 : Nat) < 16 := p1.isLt
      have hb2 : (p2 : Nat) < 16 := p2.isLt
      omega

theorem neighborOf_symm {r c : Fin 16} {d : Fin 4} {p : Fin 16 × Fin 16}
    (h : neighborOf r c d = some p) : neighborOf p.1 p.2 (d + 2) = some (r, c) := by
  rw [neighborOf_eq_some_iff] at h ⊢
  rw [dr_opp, dc_opp]
  constructor <;> simp <;> omega

/-! ### Wall symmetry is preserved by `addBorder` -/

theorem symBoard_of_borders_eq {g g' : Grid}
    (hb : ∀ a b : Fin 16, (g' a b).borders = (g a b).borders) (hg : SymBoard g) :
    SymBoard g' := by
  intro r c d p hp
  rw [hb, hb]
  exact hg r c d p hp

theorem pairSet_borders (g : Grid) (r c : Fin 16) (d : Fin 4) (p1 p2 : Fin 16)
    (a b : Fin 16) (e : Fin 4) :
    ((setBorderTrue (setBorderTrue g r c d) p1 p2 (d + 2)) a b).borders e =
      (((g a b).borders e || decide (a = r ∧ b = c ∧ e = d)) ||
        decide (a = p1 ∧ b = p2 ∧ e = d + 2)) := by
  rw [setBorderTrue_borders, setBorderTrue_borders]

theorem symBoard_setBorderTrue_pair {g : Grid} {r c : Fin 16} {d : Fin 4}
    {p : Fin 16 × Fin 16} (hnb : neighborOf r c d = some p) (hg : SymBoard g) :
    SymBoard (setBorderTrue (setBorderTrue g r c d) p.1 p.2 (d + 2)) := by
  intro a b e q hq
  have hps := neighborOf_symm hnb
  obtain ⟨p1, p2⟩ := p
  obtain ⟨q1, q2⟩ := q
  dsimp only at hps hq ⊢
  rw [pairSet_borders, pairSet_borders]
  have hgq := hg a b e (q1, q2) hq
  dsimp only at hgq
  rw [hgq]
  have iff1 : (a = r ∧ b = c ∧ e = d) ↔ (q1 = p1 ∧ q2 = p2 ∧ e + 2 = d + 2) := by
    constructor
    · rintro ⟨rfl, rfl, rfl⟩
      rw [hq] at hnb
      have h := Option.some_inj.mp hnb
      injection h with h1 h2
      exact ⟨h1, h2, rfl⟩
    · rintro ⟨rfl, rfl, he⟩
      obtain rfl := fin4_add_two_inj e d he
      have h2 := neighborOf_symm hq
      dsimp only at h2
      rw [hps] at h2
      have h := Option.some_inj.mp h2
      injection h with h1 h2
      exact ⟨h1.symm, h2.symm, rfl⟩
  have iff2 : (a = p1 ∧ b = p2 ∧ e = d + 2) ↔ (q1 = r ∧ q2 = c ∧ e + 2 = d) := by
    constructor
    · rintro ⟨rfl, rfl, rfl⟩
      rw [hq] at hps
      have h := Option.some_inj.mp hps
      injection h with h1 h2
      exact ⟨h1, h2, fin4_add_two_two d⟩
    · rintro ⟨rfl, rfl, he⟩
      have hed : e = d + 2 := by
        rw [← he, fin4_add_two_two e]
      subst hed
      have h3 := neighborOf_symm hq
      dsimp only at h3
      rw [fin4_add_two_two] at h3
      rw [h3] at hnb
      have h := Option.some_inj.mp hnb
      injection h with h1 h2
      exact ⟨h1, h2, rfl⟩
  rw [(decide_eq_decide).mpr iff1, (decide_eq_decide).mpr iff2]
  have hswap : ∀ x y z : Bool, (x || y || z) = (x || z || y) := by decide
  exact hswap _ _ _

theorem symBoard_setBorderTrue_none {g : Grid} {r c : Fin 16} {d : Fin 4}
    (hnb : neighborOf r c d = none) (hg : SymBoard g) :
    SymBoard (setBorderTrue g r c d) := by
  intro a b e q hq
  obtain ⟨q1, q2⟩ := q
  dsimp only at hq ⊢
  rw [setBorderTrue_borders, setBorderTrue_borders]
  have hgq := hg a b e (q1, q2) hq
  dsimp only at hgq
  rw [hgq]
  have h1 : ¬(a = r ∧ b = c ∧ e = d) := by
    rintro ⟨rfl, rfl, rfl⟩
    rw [hq] at hnb
    exact Option.noConfusion hnb
  have h2 : ¬(q1 = r ∧ q2 = c ∧ e + 2 = d) := by
    rintro ⟨rfl, rfl, he⟩
    have hed : e = d + 2 := by
      rw [← he, fin4_add_two_two e]
    subst hed
    have h3 := neighborOf_symm hq
    dsimp only at h3
    rw [fin4_add_two_two] at h3
    rw [h3] at hnb
    exact Option.noConfusion hnb
  simp only [decide_eq_false h1, decide_eq_false h2, Bool.or_false]

theorem neighborOf_up {row col : Nat} (h1 : row < 16) (h2 : col < 16) (hr : row > 0) :
    neighborOf ⟨row, h1⟩ ⟨col, h2⟩ 0 = some (⟨row - 1, by omega⟩, ⟨col, h2⟩) := by
  rw [neighborOf_eq_some_iff]
  refine ⟨?_, ?_⟩
  · show ((row - 1 : Nat) : Int) = ((row : Nat) : Int) + dr 0
    have hv : dr 0 = -1 := by decide
    rw [hv]; omega
  · show ((col : Nat) : Int) = ((col : Nat) : Int) + dc 0
    have hv : dc 0 = 0 := by decide
    rw [hv]; omega

theorem neighborOf_up_none {row col : Nat} (h1 : row < 16) (h2 : col < 16) (hr : ¬row > 0) :
    neighborOf ⟨row, h1⟩ ⟨col, h2⟩ 0 = none := by
  cases hn : neighborOf ⟨row, h1⟩ ⟨col, h2⟩ 0 with
  | none => rfl
  | some p =>
    exfalso
    rw [neighborOf_eq_some_iff] at hn
    obtain ⟨ha, _⟩ := hn
    have hv : dr 0 = -1 := by decide
    rw [hv] at ha
    have ha2 : ((p.1 : Nat) : Int) = ((row : Nat) : Int) + -1 := ha
    omega

theorem neighborOf_down {row col : Nat} (h1 : row < 16) (h2 : col < 16) (hr : row < 15) :
    neighborOf ⟨row, h1⟩ ⟨col, h2⟩ 2 = some (⟨row + 1, by omega⟩, ⟨col, h2⟩) := by
  rw [neighborOf_eq_some_iff]
  refine ⟨?_, ?_⟩
  · show ((row + 1 : Nat) : Int) = ((row : Nat) : Int) + dr 2
    have hv : dr 2 = 1 := by decide
    rw [hv]; omega
  · show ((col : Nat) : Int) = ((col : Nat) : Int) + dc 2
    have hv : dc 2 = 0 := by decide
    rw [hv]; omega

theorem neighborOf_down_none {row col : Nat} (h1 : row < 16) (h2 : col < 16) (hr : ¬row < 15) :
    neighborOf ⟨row, h1⟩ ⟨col, h2⟩ 2 = none := by
  cases hn : neighborOf ⟨row, h1⟩ ⟨col, h2⟩ 2 with
  | none => rfl
  | some p =>
    exfalso
    rw [neighborOf_eq_some_iff] at hn
    obtain ⟨ha, _⟩ := hn
    have hv : dr 2 = 1 := by decide
    rw [hv] at ha
    have ha2 : ((p.1 : Nat) : Int) = ((row : Nat) : Int) + 1 := ha
    have hb := p.1.isLt
    omega

theorem neighborOf_left {row col : Nat} (h1 : row < 16) (h2 : col < 16) (hc : col > 0) :
    neighborOf ⟨row, h1⟩ ⟨col, h2⟩ 3 = some (⟨row, h1⟩, ⟨col - 1, by omega⟩) := by
  rw [neighborOf_eq_some_iff]
  refine ⟨?_, ?_⟩
  · show ((row : Nat) : Int) = ((row : Nat) : Int) + dr 3
    have hv : dr 3 = 0 := by decide
    rw [hv]; omega
  · show ((col - 1 : Nat) : Int) = ((col : Nat) : Int) + dc 3
    have hv : dc 3 = -1 := by decide
    rw [hv]; omega

theorem neighborOf_left_none {row col : Nat} (h1 : row < 16) (h2 : col < 16) (hc : ¬col > 0) :
    neighborOf ⟨row, h1⟩ ⟨col, h2⟩ 3 = none := by
  cases hn : neighborOf ⟨row, h1⟩ ⟨col, h2⟩ 3 with
  | none => rfl
  | some p =>
    exfalso
    rw [neighborOf_eq_some_iff] at hn
    obtain ⟨_, ha⟩ := hn
    have hv : dc 3 = -1 := by decide
    rw [hv] at ha
    have ha2 : ((p.2 : Nat) : Int) = ((col : Nat) : Int) + -1 := ha
    omega

theorem neighborOf_right {row col : Nat} (h1 : row < 16) (h2 : col < 16) (hc : col < 15) :
    neighborOf ⟨row, h1⟩ ⟨col, h2⟩ 1 = some (⟨row, h1⟩, ⟨col + 1, by omega⟩) := by
  rw [neighborOf_eq_some_iff]
  refine ⟨?_, ?_⟩
  · show ((row : Nat) : Int) = ((row : Nat) : Int) + dr 1
    have hv : dr 1 = 0 := by decide
    rw [hv]; omega
  · show ((col + 1 : Nat) : Int) = ((col : Nat) : Int) + dc 1
    have hv : dc 1 = 1 := by decide
    rw [hv]; omega

theorem neighborOf_right_none {row col : Nat} (h1 : row < 16) (h2 : col < 16) (hc : ¬col < 15) :
    neighborOf ⟨row, h1⟩ ⟨col, h2⟩ 1 = none := by
  cases hn : neighborOf ⟨row, h1⟩ ⟨col, h2⟩ 1 with
  | none => rfl
  | some p =>
    exfalso
    rw [neighborOf_eq_some_iff] at hn
    obtain ⟨_, ha⟩ := hn
    have hv : dc 1 = 1 := by decide
    rw [hv] at ha
    have ha2 : ((p.2 : Nat) : Int) = ((col : Nat) : Int) + 1 := ha
    have hb := p.2.isLt
    omega

theorem symBoard_addBorder {g : Grid} (hg : SymBoard g) (row col : Nat) (d : Fin 4) :
    SymBoard (addBorder g row col d) := by
  unfold addBorder
  split
  case isFalse => exact hg
  case isTrue h =>
    split
    next hb =>
      obtain ⟨rfl, hr⟩ := hb
      exact symBoard_setBorderTrue_pair (neighborOf_up h.1 h.2 hr) hg
    next hb0 =>
      split
      next hb =>
        obtain ⟨rfl, hr⟩ := hb
        exact symBoard_setBorderTrue_pair (neighborOf_down h.1 h.2 hr) hg
      next hb2 =>
        split
        next hb =>
          obtain ⟨rfl, hc⟩ := hb
          exact symBoard_setBorderTrue_pair (neighborOf_left h.1 h.2 hc) hg
        next hb3 =>
          split
          next hb =>
            obtain ⟨rfl, hc⟩ := hb
            exact symBoard_setBorderTrue_pair (neighborOf_right h.1 h.2 hc) hg
          next hb1 =>
            have hnone : neighborOf ⟨row, h.1⟩ ⟨col, h.2⟩ d = none := by
              fin_cases d
              · exact neighborOf_up_none h.1 h.2 (fun hr => hb0 ⟨rfl, hr⟩)
              · exact neighborOf_right_none h.1 h.2 (fun hc => hb1 ⟨rfl, hc⟩)
              · exact neighborOf_down_none h.1 h.2 (fun hr => hb2 ⟨rfl, hr⟩)
              · exact neighborOf_left_none h.1 h.2 (fun hc => hb3 ⟨rfl, hc⟩)
            exact symBoard_setBorderTrue_none hnone hg

theorem addBorder_piece (g : Grid) (row col : Nat) (d : Fin 4) (a b : Fin 16) :
    ((addBorder g row col d) a b).piece = (g a b).piece := by
  unfold addBorder
  split
  case isFalse => rfl
  case isTrue h =>
    repeat' split
    all_goals simp only [setBorderTrue_piece]

theorem wallStep_refl (g : Grid) : WallStep g g := ⟨id, fun _ _ => rfl⟩

theorem wallStep_trans {g1 g2 g3 : Grid} (h1 : WallStep g1 g2) (h2 : WallStep g2 g3) :
    WallStep g1 g3 :=
  ⟨fun s => h2.1 (h1.1 s), fun a b => (h2.2 a b).trans (h1.2 a b)⟩

theorem wallStep_addBorder (g : Grid) (row col : Nat) (d : Fin 4) :
    WallStep g (addBorder g row col d) :=
  ⟨fun s => symBoard_addBorder s row col d, fun a b => addBorder_piece g row col d a b⟩

theorem wallStep_edgeQuadrant (qr qc : Nat) (gr : Grid × Rng) :
    WallStep gr.1 (edgeQuadrant qr qc gr).1 := by
  obtain ⟨g, r⟩ := gr
  simp only [edgeQuadrant, Rng.next]
  exact wallStep_trans (wallStep_addBorder _ _ _ _) (wallStep_addBorder _ _ _ _)

theorem wallStep_edgePhase (gr : Grid × Rng) : WallStep gr.1 (edgePhase gr).1 := by
  unfold edgePhase
  exact wallStep_trans (wallStep_trans (wallStep_trans
    (wallStep_edgeQuadrant 0 0 gr) (wallStep_edgeQuadrant 0 1 _))
    (wallStep_edgeQuadrant 1 0 _)) (wallStep_edgeQuadrant 1 1 _)

theorem wallStep_placeL (qr qc : Nat) :
    ∀ (fuel : Nat) (g : Grid) (r : Rng) (g2 : Grid) (r2 : Rng),
      placeL qr qc fuel (g, r) = some (g2, r2) → WallStep g g2 := by
  intro fuel
  induction fuel with
  | zero =>
    intro g r g2 r2 hsome
    exact absurd hsome (by simp [placeL])
  | succ n ih =>
    intro g r g2 r2 hsome
    rw [placeL] at hsome
    simp only [Rng.next] at hsome
    split at hsome
    · exact ih g _ g2 r2 hsome
    · have h := Option.some_inj.mp hsome
      injection h with h1 h2
      rw [← h1]
      exact wallStep_trans (wallStep_addBorder _ _ _ _) (wallStep_addBorder _ _ _ _)

theorem wallStep_placeLs (qr qc fuel : Nat) :
    ∀ (n : Nat) (gr gr2 : Grid × Rng),
      placeLs qr qc fuel n gr = some gr2 → WallStep gr.1 gr2.1 := by
  intro n
  induction n with
  | zero =>
    intro gr gr2 hsome
    rw [placeLs] at hsome
    obtain rfl := Option.some_inj.mp hsome
    exact wallStep_refl _
  | succ k ih =>
    intro gr gr2 hsome
    rw [placeLs] at hsome
    cases hL : placeL qr qc fuel gr with
    | none => rw [hL] at hsome; exact absurd hsome (by simp)
    | some gm =>
      rw [hL] at hsome
      simp only [Option.some_bind] at hsome
      obtain ⟨g, r⟩ := gr
      obtain ⟨gm1, rm⟩ := gm
      exact wallStep_trans (wallStep_placeL qr qc fuel g r gm1 rm hL) (ih _ _ hsome)

theorem wallStep_lPhase (fuel : Nat) (gr gr2 : Grid × Rng)
    (h : lPhase fuel gr = some gr2) : WallStep gr.1 gr2.1 := by
  unfold lPhase at h
  cases h1 : placeLs 0 0 fuel 4 gr with
  | none => rw [h1] at h; exact absurd h (by simp)
  | some a =>
    rw [h1] at h
    simp only [Option.some_bind] at h
    cases h2 : placeLs 0 1 fuel 4 a with
    | none => rw [h2] at h; exact absurd h (by simp)
    | some b =>
      rw [h2] at h
      simp only [Option.some_bind] at h
      cases h3 : placeLs 1 0 fuel 4 b with
      | none => rw [h3] at h; exact absurd h (by simp)
      | some c =>
        rw [h3] at h
        simp only [Option.some_bind] at h
        exact wallStep_trans (wallStep_placeLs 0 0 fuel 4 gr a h1)
          (wallStep_trans (wallStep_placeLs 0 1 fuel 4 a b h2)
            (wallStep_trans (wallStep_placeLs 1 0 fuel 4 b c h3)
              (wallStep_placeLs 1 1 fuel 4 c gr2 h)))

theorem symBoard_setPieceOcc {g : Grid} (hg : SymBoard g) (r c : Fin 16) (v : Occ) :
    SymBoard (setPieceOcc g r c v) :=
  symBoard_of_borders_eq (fun a b => setPieceOcc_borders g r c v a b) hg

theorem symBoard_emptyGrid : SymBoard emptyGrid := by
  intro r c d p hp
  rfl

theorem symBoard_hubGrid : SymBoard hubGrid := by
  unfold hubGrid hubBorders
  apply symBoard_setPieceOcc
  apply symBoard_setPieceOcc
  apply symBoard_setPieceOcc
  apply symBoard_setPieceOcc
  apply symBoard_addBorder
  apply symBoard_addBorder
  apply symBoard_addBorder
  apply symBoard_addBorder
  apply symBoard_addBorder
  apply symBoard_addBorder
  apply symBoard_addBorder
  apply symBoard_addBorder
  exact symBoard_emptyGrid

theorem placePiece_borders {col : Color} {fuel : Nat} {s s2 : Grid × Pieces × Rng}
    (h : placePiece col fuel s = some s2) :
    ∀ a b : Fin 16, (s2.1 a b).borders = (s.1 a b).borders := by
  unfold placePiece at h
  cases hf : getFreeCell fuel s.1 s.2.2 with
  | none => rw [hf] at h; exact absurd h (by simp)
  | some x =>
    obtain ⟨loc, r2⟩ := x
    rw [hf] at h
    have h2 := Option.some_inj.mp h
    intro a b
    rw [← h2]
    exact setPieceOcc_borders _ _ _ _ a b

theorem placePieces_borders {fuel : Nat} {s s2 : Grid × Pieces × Rng}
    (h : placePieces fuel s = some s2) :
    ∀ a b : Fin 16, (s2.1 a b).borders = (s.1 a b).borders := by
  unfold placePieces at h
  cases h1 : placePiece Color.blue fuel s with
  | none => rw [h1] at h; exact absurd h (by simp)
  | some a1 =>
    rw [h1] at h
    simp only [Option.some_bind] at h
    cases h2 : placePiece Color.red fuel a1 with
    | none => rw [h2] at h; exact absurd h (by simp)
    | some a2 =>
      rw [h2] at h
      simp only [Option.some_bind] at h
      cases h3 : placePiece Color.green fuel a2 with
      | none => rw [h3] at h; exact absurd h (by simp)
      | some a3 =>
        rw [h3] at h
        simp only [Option.some_bind] at h
        intro a b
        rw [placePiece_borders h a b, placePiece_borders h3 a b,
          placePiece_borders h2 a b, placePiece_borders h1 a b]

theorem executeMove_borders (st : GameState) (m : MoveAction) (a b : Fin 16) :
    ((executeMove st m).board a b).borders = (st.board a b).borders := by
  simp only [executeMove]
  rw [setPieceOcc_borders, setPieceOcc_borders]

theorem executeMove_moves (st : GameState) (m : MoveAction) :
    (executeMove st m).moves = st.moves := rfl

theorem executeMove_best (st : GameState) (m : MoveAction) :
    (executeMove st m).bestSolution = st.bestSolution := rfl

theorem executeMove_target (st : GameState) (m : MoveAction) :
    (executeMove st m).target = st.target := rfl

theorem executeMove_active (st : GameState) (m : MoveAction) :
    (executeMove st m).activeColor = st.activeColor := rfl

theorem stepKey_borders (st : GameState) (d : Fin 4) (a b : Fin 16) :
    ((stepKey st d).board a b).borders = (st.board a b).borders := by
  cases hac : st.activeColor with
  | none => simp only [stepKey, hac]
  | some col =>
    cases hmt : getMaxTravelDistance st.board (((st.pieces col).1 : Int), ((st.pieces col).2 : Int)) d with
    | none => simp only [stepKey, hac, hmt]
    | some k =>
      simp only [stepKey, hac, hmt]
      split
      case isTrue h =>
        split <;> exact executeMove_borders st _ a b
      case isFalse h => rfl

theorem rollbackGo_borders (n : Nat) :
    ∀ st : GameState, ∀ a b : Fin 16,
      ((rollbackGo n st).board a b).borders = (st.board a b).borders := by
  induction n with
  | zero => intro st a b; rfl
  | succ k ih =>
    intro st a b
    rw [rollbackGo]
    cases hl : st.moves.getLast? with
    | none => rfl
    | some m =>
      rw [ih, executeMove_borders]

theorem replay_borders (l : List MoveAction) :
    ∀ st : GameState, ∀ a b : Fin 16,
      ((replay st l).board a b).borders = (st.board a b).borders := by
  induction l with
  | nil => intro st a b; rfl
  | cons m ms ih =>
    intro st a b
    rw [replay, ih, executeMove_borders]

theorem step_borders (st : GameState) (e : Ev) (a b : Fin 16) :
    ((step st e).board a b).borders = (st.board a b).borders := by
  cases e with
  | select c => rfl
  | key d => exact stepKey_borders st d a b
  | reset => exact rollbackGo_borders _ st a b
  | newRound ra rb =>
    show ((match (rollback st).bestSolution with
      | some l => replay (rollback st) l
      | none => rollback st).board a b).borders = (st.board a b).borders
    cases hb : (rollback st).bestSolution with
    | none => exact rollbackGo_borders _ st a b
    | some l =>
      rw [replay_borders]
      exact rollbackGo_borders _ st a b

theorem symBoard_makeGameBoardState {fuel : Nat} {r0 : Rng} {st : GameState}
    (h : makeGameBoardState fuel r0 = some st) : SymBoard st.board := by
  unfold makeGameBoardState at h
  cases hl : lPhase fuel (edgePhase (hubGrid, r0)) with
  | none => rw [hl] at h; exact absurd h (by simp)
  | some g2r2 =>
    obtain ⟨g2, r2⟩ := g2r2
    rw [hl] at h
    dsimp only at h
    cases hp : placePieces fuel (g2, (fun _ => ((0 : Fin 16), (0 : Fin 16))), r2) with
    | none => rw [hp] at h; exact absurd h (by simp)
    | some s3 =>
      obtain ⟨g3, ps, r3⟩ := s3
      rw [hp] at h
      dsimp only at h
      obtain rfl := Option.some_inj.mp h
      have hwall := wallStep_lPhase fuel _ _ hl
      have hedge := wallStep_edgePhase (hubGrid, r0)
      have hsym2 : SymBoard g2 := (wallStep_trans hedge hwall).1 symBoard_hubGrid
      have hbord := placePieces_borders hp
      exact symBoard_of_borders_eq (fun a b => hbord a b) hsym2

set_option maxRecDepth 1000000 in
theorem gen_isSome : (makeGameBoardState 4 wRng).isSome = true := by decide

/-- C4: every grid produced by board generation satisfies the wall-symmetry
invariant (a cell has a border on side `d` iff its in-bounds neighbor in
direction `d` has the border on the opposite side), and no session
operation after generation modifies any border flag. -/
theorem wall_symmetry_invariant :
    (∀ (fuel : Nat) (r0 : Rng) (st : GameState),
      makeGameBoardState fuel r0 = some st → SymBoard st.board) ∧
    (∀ (st : GameState) (e : Ev) (a b : Fin 16),
      ((step st e).board a b).borders = (st.board a b).borders) :=
  ⟨fun _ _ _ h => symBoard_makeGameBoardState h, step_borders⟩

/-- Witness for C4: a concrete random stream under which generation
succeeds, with the symmetry conclusion instantiated there. -/
theorem wall_symmetry_invariant_witness :
    ∃ st : GameState, makeGameBoardState 4 wRng = some st ∧ SymBoard st.board := by
  have h := Option.some_get gen_isSome
  exact ⟨_, h.symm, wall_symmetry_invariant.1 4 wRng _ h.symm⟩

/-! ### Lemmas on the slide-distance loop -/

theorem mtGo_ge {g : Grid} {row col : Int} {d : Fin 4} :
    ∀ (fuel : Nat) {steps k : Nat}, mtGo g row col d steps fuel = some k → steps - 1 ≤ k := by
  intro fuel
  induction fuel with
  | zero =>
    intro steps k h
    exact absurd h (by rw [mtGo]; simp)
  | succ n ih =>
    intro steps k h
    rw [mtGo] at h
    split at h
    · obtain rfl := Option.some_inj.mp h
      exact le_refl _
    · have := ih h
      omega

theorem mtGo_blocked_succ {g : Grid} {row col : Int} {d : Fin 4} :
    ∀ (fuel : Nat) {steps k : Nat}, 1 ≤ steps → mtGo g row col d steps fuel = some k →
      slideBlocked g (row + dr d * ((k + 1 : Nat) : Int))
        (col + dc d * ((k + 1 : Nat) : Int)) d = true := by
  intro fuel
  induction fuel with
  | zero =>
    intro steps k _ h
    exact absurd h (by rw [mtGo]; simp)
  | succ n ih =>
    intro steps k h1 h
    rw [mtGo] at h
    split at h
    case isTrue hb =>
      obtain rfl := Option.some_inj.mp h
      have hsk : steps - 1 + 1 = steps := by omega
      rw [hsk]
      exact hb
    case isFalse hb =>
      exact ih (by omega) h

theorem mtGo_pass {g : Grid} {row col : Int} {d : Fin 4} :
    ∀ (fuel : Nat) {steps k : Nat}, 1 ≤ steps → mtGo g row col d steps fuel = some k →
      ∀ s : Nat, steps ≤ s → s ≤ k →
        slideBlocked g (row + dr d * (s : Int)) (col + dc d * (s : Int)) d = false := by
  intro fuel
  induction fuel with
  | zero =>
    intro steps k _ h
    exact absurd h (by rw [mtGo]; simp)
  | succ n ih =>
    intro steps k h1 h s hs1 hs2
    rw [mtGo] at h
    split at h
    case isTrue hb =>
      obtain rfl := Option.some_inj.mp h
      exfalso
      omega
    case isFalse hb =>
      rcases Nat.eq_or_lt_of_le hs1 with heq | hlt
      · subst heq
        cases hX : slideBlocked g (row + dr d * (steps : Int)) (col + dc d * (steps : Int)) d with
        | false => rfl
        | true => exact absurd hX hb
      · exact ih (by omega) h s hlt hs2

theorem mtGo_total {g : Grid} {row col : Int} {d : Fin 4} :
    ∀ (fuel : Nat) {steps : Nat} (s : Nat), 1 ≤ steps → steps ≤ s → s < steps + fuel →
      slideBlocked g (row + dr d * (s : Int)) (col + dc d * (s : Int)) d = true →
      ∃ k, mtGo g row col d steps fuel = some k ∧ k < s := by
  intro fuel
  induction fuel with
  | zero =>
    intro steps s h1 h2 h3 hb
    exfalso
    omega
  | succ n ih =>
    intro steps s h1 h2 h3 hb
    rw [mtGo]
    split
    case isTrue hblk => exact ⟨steps - 1, rfl, by omega⟩
    case isFalse hblk =>
      have hne : steps ≠ s := by
        rintro rfl
        exact hblk hb
      exact ih s (by omega) (by omega) (by omega) hb

theorem slideBlocked_of_off (g : Grid) {row col : Int} (d : Fin 4)
    (h : ¬(0 ≤ row ∧ row < 16 ∧ 0 ≤ col ∧ col < 16)) : slideBlocked g row col d = true := by
  unfold slideBlocked getCell
  rw [dif_neg h]

theorem dir_vec_cases : ∀ d : Fin 4,
    (dr d = -1 ∧ dc d = 0) ∨ (dr d = 0 ∧ dc d = 1) ∨
      (dr d = 1 ∧ dc d = 0) ∨ (dr d = 0 ∧ dc d = -1) := by decide

theorem exists_blocked_step (g : Grid) {row col : Int}
    (hr0 : 0 ≤ row) (hr1 : row < 16) (hc0 : 0 ≤ col) (hc1 : col < 16) (d : Fin 4) :
    ∃ s : Nat, 1 ≤ s ∧ s ≤ 16 ∧
      slideBlocked g (row + dr d * (s : Int)) (col + dc d * (s : Int)) d = true := by
  rcases dir_vec_cases d with ⟨h1, h2⟩ | ⟨h1, h2⟩ | ⟨h1, h2⟩ | ⟨h1, h2⟩
  · refine ⟨row.toNat + 1, by omega, by omega, ?_⟩
    apply slideBlocked_of_off
    rw [h1, h2]
    omega
  · refine ⟨16 - col.toNat, by omega, by omega, ?_⟩
    apply slideBlocked_of_off
    rw [h1, h2]
    omega
  · refine ⟨16 - row.toNat, by omega, by omega, ?_⟩
    apply slideBlocked_of_off
    rw [h1, h2]
    omega
  · refine ⟨col.toNat + 1, by omega, by omega, ?_⟩
    apply slideBlocked_of_off
    rw [h1, h2]
    omega

theorem slideBlocked_iff (g : Grid) (a b : Int) (d : Fin 4) :
    slideBlocked g a b d = true ↔
      (getCell g a b = none ∨
        ∃ cell, getCell g a b = some cell ∧
          (cell.borders (d + 2) = true ∨ occupied cell = true)) := by
  unfold slideBlocked
  cases hgc : getCell g a b with
  | none => simp
  | some cell => simp [Bool.or_eq_true]

/-- C5: for every board and in-bounds start, `getMaxTravelDistance` returns
`some k` with `k ≤ 15` (the internal error is unreachable), and `k = 0`
exactly when the immediately adjacent cell in the direction is off-grid,
walled against entry (`borders[(dir + 2) % 4]`), or occupied. -/
theorem maxTravel_range_and_zero (g : Grid) (row col : Int)
    (hr0 : 0 ≤ row) (hr1 : row < 16) (hc0 : 0 ≤ col) (hc1 : col < 16) (d : Fin 4) :
    ∃ k : Nat, getMaxTravelDistance g (row, col) d = some k ∧ k ≤ 15 ∧
      (k = 0 ↔
        (getCell g (row + dr d) (col + dc d) = none ∨
          ∃ cell, getCell g (row + dr d) (col + dc d) = some cell ∧
            (cell.borders (d + 2) = true ∨ occupied cell = true))) := by
  obtain ⟨s, hs1, hs16, hblk⟩ := exists_blocked_step g hr0 hr1 hc0 hc1 d
  obtain ⟨k, hk, hks⟩ := mtGo_total 16 s (le_refl 1) hs1 (by omega) hblk
  have hk2 : getMaxTravelDistance g (row, col) d = some k := hk
  refine ⟨k, hk2, by omega, ?_⟩
  rw [← slideBlocked_iff]
  constructor
  · rintro rfl
    have hb := mtGo_blocked_succ 16 (le_refl 1) hk
    simpa using hb
  · intro hb
    by_contra hk0
    have hp := mtGo_pass 16 (le_refl 1) hk 1 (le_refl 1) (by omega)
    simp only [Nat.cast_one, mul_one] at hp
    rw [hp] at hb
    exact Bool.noConfusion hb

/-- Witness for C5: the empty grid, start `(0, 0)`, direction `RIGHT`
(travel 15 to the far wall). -/
theorem maxTravel_range_and_zero_witness :
    ((0 : Int) ≤ 0 ∧ (0 : Int) < 16) ∧
      ∃ k : Nat, getMaxTravelDistance emptyGrid (0, 0) 1 = some k ∧ k ≤ 15 ∧
        (k = 0 ↔
          (getCell emptyGrid ((0 : Int) + dr 1) ((0 : Int) + dc 1) = none ∨
            ∃ cell, getCell emptyGrid ((0 : Int) + dr 1) ((0 : Int) + dc 1) = some cell ∧
              (cell.borders (1 + 2) = true ∨ occupied cell = true))) :=
  ⟨⟨by decide, by decide⟩,
    maxTravel_range_and_zero emptyGrid 0 0 (by decide) (by decide) (by decide) (by decide) 1⟩

/-! ### Lemmas about `executeMove` -/

theorem cell_ext {x y : Cell} (hb : x.borders = y.borders) (hp : x.piece = y.piece) :
    x = y := by
  cases x
  cases y
  cases hb
  cases hp
  rfl

theorem occupied_eq_false_iff (cell : Cell) :
    occupied cell = false ↔ cell.piece = Occ.empty := by
  unfold occupied
  cases hcp : cell.piece <;> simp [hcp]

theorem getCell_fin (g : Grid) (a b : Fin 16) :
    getCell g (a : Int) (b : Int) = some (g a b) := by
  have ha := a.isLt
  have hb := b.isLt
  have hbnd : (0 : Int) ≤ (a : Int) ∧ (a : Int) < 16 ∧ (0 : Int) ≤ (b : Int) ∧ (b : Int) < 16 := by
    omega
  have e1 : ∀ (h1 : ((a : Int)).toNat < 16) (h2 : ((b : Int)).toNat < 16),
      g ⟨((a : Int)).toNat, h1⟩ ⟨((b : Int)).toNat, h2⟩ = g a b := by
    intro h1 h2
    have f1 : (⟨((a : Int)).toNat, h1⟩ : Fin 16) = a := Fin.ext (by simp)
    have f2 : (⟨((b : Int)).toNat, h2⟩ : Fin 16) = b := Fin.ext (by simp)
    rw [f1, f2]
  unfold getCell
  rw [dif_pos hbnd]
  exact congrArg some (e1 _ _)

theorem slideBlocked_eq_false {g : Grid} {a b : Int} {d : Fin 4}
    (h : slideBlocked g a b d = false) :
    ∃ cell, getCell g a b = some cell ∧ cell.borders (d + 2) = false ∧
      occupied cell = false := by
  unfold slideBlocked at h
  cases hgc : getCell g a b with
  | none => rw [hgc] at h; exact Bool.noConfusion h
  | some cell =>
    rw [hgc] at h
    exact ⟨cell, rfl, Bool.or_eq_false_iff.mp h⟩

theorem executeMove_self {st : GameState} {m : MoveAction}
    (h1 : m.fromLoc = m.toLoc) (h2 : st.pieces m.color = m.fromLoc)
    (h3 : (st.board m.fromLoc.1 m.fromLoc.2).piece = Occ.occ m.color) :
    (executeMove st m).board = st.board ∧ (executeMove st m).pieces = st.pieces := by
  constructor
  · funext a b
    show (setPieceOcc (setPieceOcc st.board m.fromLoc.1 m.fromLoc.2 Occ.empty)
      m.toLoc.1 m.toLoc.2 (Occ.occ m.color)) a b = st.board a b
    rw [← h1]
    by_cases hab : a = m.fromLoc.1 ∧ b = m.fromLoc.2
    · obtain ⟨rfl, rfl⟩ := hab
      apply cell_ext
      · rw [setPieceOcc_borders, setPieceOcc_borders]
      · rw [setPieceOcc_piece_self, h3]
    · rw [setPieceOcc, setCell_ne _ _ _ _ hab, setPieceOcc, setCell_ne _ _ _ _ hab]
  · funext cc
    show (if cc = m.color then m.toLoc else st.pieces cc) = st.pieces cc
    by_cases hc : cc = m.color
    · subst hc
      rw [if_pos rfl, ← h1, h2]
    · rw [if_neg hc]

/-- C10: `executeMove` on a move with `from = to`, on a cell holding the
piece of the move's color, leaves the occupancy grid and every piece
location unchanged (the destination write follows the source clear). -/
theorem executeMove_zero_distance (st : GameState) (m : MoveAction)
    (h1 : m.fromLoc = m.toLoc) (h2 : st.pieces m.color = m.fromLoc)
    (h3 : (st.board m.fromLoc.1 m.fromLoc.2).piece = Occ.occ m.color) :
    (executeMove st m).board = st.board ∧ (executeMove st m).pieces = st.pieces :=
  executeMove_self h1 h2 h3

/-- Witness for C10: the zero-distance blue move on the concrete state. -/
theorem executeMove_zero_distance_witness :
    (mvZero.fromLoc = mvZero.toLoc ∧ c1St.pieces mvZero.color = mvZero.fromLoc ∧
      (c1St.board mvZero.fromLoc.1 mvZero.fromLoc.2).piece = Occ.occ mvZero.color) ∧
    ((executeMove c1St mvZero).board = c1St.board ∧
      (executeMove c1St mvZero).pieces = c1St.pieces) :=
  ⟨⟨by decide, by decide, by decide⟩,
    executeMove_zero_distance c1St mvZero (by decide) (by decide) (by decide)⟩

/-- C6: applying a legal move (source cell holds the piece, destination
produced by a positive `getMaxTravelDistance` result) and then its
inversion `{color, from := to, to := from}` restores the occupancy grid
and every piece location exactly. -/
theorem executeMove_invert_roundTrip (st : GameState) (m : MoveAction) (d : Fin 4) (k : Nat)
    (hp : st.pieces m.color = m.fromLoc)
    (hcellF : (st.board m.fromLoc.1 m.fromLoc.2).piece = Occ.occ m.color)
    (hmt : getMaxTravelDistance st.board ((m.fromLoc.1 : Int), (m.fromLoc.2 : Int)) d = some k)
    (hk : 0 < k)
    (ht1 : (m.toLoc.1 : Int) = (m.fromLoc.1 : Int) + dr d * (k : Int))
    (ht2 : (m.toLoc.2 : Int) = (m.fromLoc.2 : Int) + dc d * (k : Int)) :
    (executeMove (executeMove st m) (invertMove m)).board = st.board ∧
      (executeMove (executeMove st m) (invertMove m)).pieces = st.pieces := by
  have hmt2 : mtGo st.board (m.fromLoc.1 : Int) (m.fromLoc.2 : Int) d 1 16 = some k := hmt
  have hpass := mtGo_pass 16 (le_refl 1) hmt2 k (by omega) (le_refl k)
  rw [← ht1, ← ht2] at hpass
  obtain ⟨cell, hcell2, hbord, hocc⟩ := slideBlocked_eq_false hpass
  rw [getCell_fin] at hcell2
  obtain rfl := Option.some_inj.mp hcell2
  have hempty : (st.board m.toLoc.1 m.toLoc.2).piece = Occ.empty :=
    (occupied_eq_false_iff _).mp hocc
  have hne : ¬(m.toLoc.1 = m.fromLoc.1 ∧ m.toLoc.2 = m.fromLoc.2) := by
    rintro ⟨he1, he2⟩
    rw [he1] at ht1
    rw [he2] at ht2
    have hdr : dr d * (k : Int) = 0 := by omega
    have hdc : dc d * (k : Int) = 0 := by omega
    rcases mul_eq_zero.mp hdr with h | h
    · rcases mul_eq_zero.mp hdc with h2 | h2
      · exact dir_vec_ne_zero d ⟨h, h2⟩
      · omega
    · omega
  constructor
  · funext a b
    show (setPieceOcc (setPieceOcc
        (setPieceOcc (setPieceOcc st.board m.fromLoc.1 m.fromLoc.2 Occ.empty)
          m.toLoc.1 m.toLoc.2 (Occ.occ m.color))
        m.toLoc.1 m.toLoc.2 Occ.empty)
      m.fromLoc.1 m.fromLoc.2 (Occ.occ m.color)) a b = st.board a b
    by_cases hf : a = m.fromLoc.1 ∧ b = m.fromLoc.2
    · obtain ⟨rfl, rfl⟩ := hf
      apply cell_ext
      · rw [setPieceOcc_borders, setPieceOcc_borders, setPieceOcc_borders, setPieceOcc_borders]
      · rw [setPieceOcc_piece_self, hcellF]
    · by_cases ht : a = m.toLoc.1 ∧ b = m.toLoc.2
      · obtain ⟨rfl, rfl⟩ := ht
        apply cell_ext
        · rw [setPieceOcc_borders, setPieceOcc_borders, setPieceOcc_borders, setPieceOcc_borders]
        · rw [setPieceOcc_piece_ne _ _ _ _ hf, setPieceOcc_piece_self, hempty]
      · rw [setPieceOcc, setCell_ne _ _ _ _ hf, setPieceOcc, setCell_ne _ _ _ _ ht,
          setPieceOcc, setCell_ne _ _ _ _ ht, setPieceOcc, setCell_ne _ _ _ _ hf]
  · funext cc
    show (if cc = m.color then m.fromLoc else (if cc = m.color then m.toLoc else st.pieces cc)) =
      st.pieces cc
    by_cases hc : cc = m.color
    · subst hc
      rw [if_pos rfl, hp]
    · rw [if_neg hc, if_neg hc]

/-- Witness for C6: the blue piece sliding from `(0, 0)` to `(0, 15)` along
the empty row of the concrete state, then moved back. -/
theorem executeMove_invert_roundTrip_witness :
    (c1St.pieces mvSlide.color = mvSlide.fromLoc ∧
      (c1St.board mvSlide.fromLoc.1 mvSlide.fromLoc.2).piece = Occ.occ mvSlide.color ∧
      getMaxTravelDistance c1St.board
        ((mvSlide.fromLoc.1 : Int), (mvSlide.fromLoc.2 : Int)) 1 = some 15 ∧
      (0 : Nat) < 15 ∧
      (mvSlide.toLoc.1 : Int) = (mvSlide.fromLoc.1 : Int) + dr 1 * (15 : Int) ∧
      (mvSlide.toLoc.2 : Int) = (mvSlide.fromLoc.2 : Int) + dc 1 * (15 : Int)) ∧
    ((executeMove (executeMove c1St mvSlide) (invertMove mvSlide)).board = c1St.board ∧
      (executeMove (executeMove c1St mvSlide) (invertMove mvSlide)).pieces = c1St.pieces) :=
  ⟨⟨by decide, by decide, by decide, by decide, by decide, by decide⟩,
    executeMove_invert_roundTrip c1St mvSlide 1 15 (by decide) (by decide) (by decide)
      (by decide) (by decide) (by decide)⟩

/-- Counterexample to C1 as stated: on the concrete state with the blue
piece at `(0, 0)`, pressing UP computes travel distance 0, yet the keydown
handler still records a move — the Move History changes. -/
theorem requestSlide_zero_records_move :
    getMaxTravelDistance c1St.board ((0 : Int), (0 : Int)) 0 = some 0 ∧
      (step c1St (Ev.key 0)).moves ≠ c1St.moves := by decide

/-- C1 amended: with an active color whose piece's cell holds it, a keydown
whose travel distance is 0 leaves the board occupancy and the piece
locations unchanged, but a zero-distance move (`from = to`) IS appended to
the Move History. -/
theorem requestSlide_zero_effect (st : GameState) (c : Color) (d : Fin 4)
    (hac : st.activeColor = some c)
    (hmt : getMaxTravelDistance st.board
      (((st.pieces c).1 : Int), ((st.pieces c).2 : Int)) d = some 0)
    (hcell : (st.board (st.pieces c).1 (st.pieces c).2).piece = Occ.occ c) :
    (step st (Ev.key d)).board = st.board ∧ (step st (Ev.key d)).pieces = st.pieces ∧
      (step st (Ev.key d)).moves = st.moves ++
        [{ color := c, fromLoc := st.pieces c, toLoc := st.pieces c }] := by
  have hbnd : (0 : Int) ≤ ((st.pieces c).1 : Int) ∧ ((st.pieces c).1 : Int) < 16 ∧
      (0 : Int) ≤ ((st.pieces c).2 : Int) ∧ ((st.pieces c).2 : Int) < 16 := by
    have h1 := (st.pieces c).1.isLt
    have h2 := (st.pieces c).2.isLt
    omega
  have hdest : ∀ (hh1 : (((st.pieces c).1 : Int)).toNat < 16)
      (hh2 : (((st.pieces c).2 : Int)).toNat < 16),
      ((⟨(((st.pieces c).1 : Int)).toNat, hh1⟩ : Fin 16),
        (⟨(((st.pieces c).2 : Int)).toNat, hh2⟩ : Fin 16)) = st.pieces c := by
    intro hh1 hh2
    have f1 : (⟨(((st.pieces c).1 : Int)).toNat, hh1⟩ : Fin 16) = (st.pieces c).1 :=
      Fin.ext (by simp)
    have f2 : (⟨(((st.pieces c).2 : Int)).toNat, hh2⟩ : Fin 16) = (st.pieces c).2 :=
      Fin.ext (by simp)
    rw [f1, f2]
  simp only [step, stepKey, hac, hmt, Nat.cast_zero, mul_zero, add_zero]
  rw [dif_pos hbnd]
  rw [hdest _ _]
  refine ⟨?_, ?_, ?_⟩
  · split
    · exact (executeMove_self rfl rfl hcell).1
    · exact (executeMove_self rfl rfl hcell).1
  · split
    · exact (executeMove_self rfl rfl hcell).2
    · exact (executeMove_self rfl rfl hcell).2
  · split
    · rfl
    · rfl

/-- Witness for C1's amended claim: the concrete state, key UP. -/
theorem requestSlide_zero_effect_witness :
    (c1St.activeColor = some Color.blue ∧
      getMaxTravelDistance c1St.board
        (((c1St.pieces Color.blue).1 : Int), ((c1St.pieces Color.blue).2 : Int)) 0 = some 0 ∧
      (c1St.board (c1St.pieces Color.blue).1 (c1St.pieces Color.blue).2).piece =
        Occ.occ Color.blue) ∧
    ((step c1St (Ev.key 0)).board = c1St.board ∧
      (step c1St (Ev.key 0)).pieces = c1St.pieces ∧
      (step c1St (Ev.key 0)).moves = c1St.moves ++
        [{ color := Color.blue, fromLoc := c1St.pieces Color.blue,
           toLoc := c1St.pieces Color.blue }]) :=
  ⟨⟨by decide, by decide, by decide⟩,
    requestSlide_zero_effect c1St Color.blue 0 (by decide) (by decide) (by decide)⟩

/-- Counterexample to C3 as stated: on the all-empty grid no cell is both
unoccupied and two-walled, and `getLegalTarget` returns an ordinary target
whose location is undefined (`none`) — no error condition is signalled. -/
theorem noLegalTarget_returns_undefined :
    targetCandidates emptyGrid = [] ∧ (getLegalTarget emptyGrid 0 0).location = none := by
  decide

/-- C3 amended: when no cell is simultaneously unoccupied and two-walled,
`getLegalTarget` silently returns a target with an undefined (`none`)
location — the empty candidate array is indexed, yielding `undefined`,
rather than any explicitly signalled error. -/
theorem getLegalTarget_no_candidates (g : Grid) (ra rb : Nat)
    (h : ∀ r c : Fin 16, ¬(occupied (g r c) = false ∧ numBorders (g r c) = 2)) :
    (getLegalTarget g ra rb).location = none := by
  have hcand : targetCandidates g = [] := by
    apply List.filter_eq_nil_iff.mpr
    intro p _ hpp
    rw [Bool.and_eq_true] at hpp
    obtain ⟨h1, h2⟩ := hpp
    have ho : occupied (g p.1 p.2) = false := by
      revert h1
      cases occupied (g p.1 p.2) <;> simp
    exact h p.1 p.2 ⟨ho, of_decide_eq_true h2⟩
  simp only [getLegalTarget, hcand]
  rfl

/-- Witness for C3's amended claim: the all-empty grid. -/
theorem getLegalTarget_no_candidates_witness :
    (∀ r c : Fin 16, ¬(occupied (emptyGrid r c) = false ∧ numBorders (emptyGrid r c) = 2)) ∧
      (getLegalTarget emptyGrid 0 0).location = none :=
  ⟨by decide, getLegalTarget_no_candidates emptyGrid 0 0 (by decide)⟩

/-- C8: whenever `getLegalTarget` returns a defined location, that cell is
unoccupied and has exactly two borders. -/
theorem selectTarget_validity (g : Grid) (ra rb : Nat) (loc : Fin 16 × Fin 16)
    (h : (getLegalTarget g ra rb).location = some loc) :
    occupied (g loc.1 loc.2) = false ∧ numBorders (g loc.1 loc.2) = 2 := by
  unfold getLegalTarget at h
  have hmem : loc ∈ targetCandidates g := List.get?_mem h
  unfold targetCandidates at hmem
  rw [List.mem_filter] at hmem
  obtain ⟨_, hpred⟩ := hmem
  rw [Bool.and_eq_true] at hpred
  obtain ⟨h1, h2⟩ := hpred
  constructor
  · revert h1
    cases occupied (g loc.1 loc.2) <;> simp
  · exact of_decide_eq_true h2

/-- Witness for C8: a board whose single pocket cell is `(1, 5)`. -/
theorem selectTarget_validity_witness :
    (getLegalTarget c8grid 0 0).location = some ((1 : Fin 16), (5 : Fin 16)) ∧
      (occupied (c8grid 1 5) = false ∧ numBorders (c8grid 1 5) = 2) :=
  ⟨by decide, selectTarget_validity c8grid 0 0 ((1 : Fin 16), (5 : Fin 16)) (by decide)⟩

/-- C2 divergence, concretely: pressing `newRound` sets the best solution
to the EMPTY ARRAY (`some []`), not to "absent" (`none`); a subsequent
one-move target completion (blue reaching the drawn pocket `(0, 15)`) is
recognized (the active color is cleared and the move is in the history),
yet the best solution remains `some []` — the one-move solution is never
installed, because `[].length > moves.length` is false and the
`=== null` test fails. -/
theorem newRound_empty_best_blocks_update :
    (step c2St (Ev.newRound 0 0)).bestSolution = some [] ∧
    (step c2St (Ev.newRound 0 0)).target =
      { color := Color.blue, location := some ((0 : Fin 16), (15 : Fin 16)) } ∧
    (runEvents c2St [Ev.newRound 0 0, Ev.select Color.blue, Ev.key 1]).moves.length = 1 ∧
    (runEvents c2St [Ev.newRound 0 0, Ev.select Color.blue, Ev.key 1]).activeColor = none ∧
    (runEvents c2St [Ev.newRound 0 0, Ev.select Color.blue, Ev.key 1]).bestSolution =
      some [] := by
  decide

/-! ### Best-solution monotonicity -/

theorem rollbackGo_best (n : Nat) :
    ∀ st : GameState, (rollbackGo n st).bestSolution = st.bestSolution := by
  induction n with
  | zero => intro st; rfl
  | succ k ih =>
    intro st
    rw [rollbackGo]
    cases hl : st.moves.getLast? with
    | none => rfl
    | some m =>
      rw [ih]
      rfl

theorem step_best_mono (st : GameState) (e : Ev) (he : isNewRoundEv e = false)
    (l : List MoveAction) (hb : st.bestSolution = some l) :
    ∃ m, (step st e).bestSolution = some m ∧ m.length ≤ l.length ∧
      (m ≠ l → m.length < l.length) := by
  cases e with
  | select c => exact ⟨l, hb, le_refl _, fun h => absurd rfl h⟩
  | newRound ra rb => exact Bool.noConfusion he
  | reset =>
    refine ⟨l, ?_, le_refl _, fun h => absurd rfl h⟩
    show (rollback st).bestSolution = some l
    rw [rollback, rollbackGo_best]
    exact hb
  | key d =>
    cases hac : st.activeColor with
    | none =>
      refine ⟨l, ?_, le_refl _, fun h => absurd rfl h⟩
      simp only [step, stepKey, hac]
      exact hb
    | some c =>
      cases hmt : getMaxTravelDistance st.board
          (((st.pieces c).1 : Int), ((st.pieces c).2 : Int)) d with
      | none =>
        refine ⟨l, ?_, le_refl _, fun h => absurd rfl h⟩
        simp only [step, stepKey, hac, hmt]
        exact hb
      | some k =>
        simp only [step, stepKey, hac, hmt]
        split
        case isFalse h => exact ⟨l, hb, le_refl _, fun hh => absurd rfl hh⟩
        case isTrue h =>
          split
          case isTrue hwin =>
            simp only [executeMove_best, executeMove_moves]
            rw [hb]
            dsimp only
            split
            case isTrue hlen =>
              refine ⟨_, rfl, by omega, fun _ => by omega⟩
            case isFalse hlen => exact ⟨l, rfl, le_refl _, fun hh => absurd rfl hh⟩
          case isFalse hwin => exact ⟨l, hb, le_refl _, fun hh => absurd rfl hh⟩

theorem runEvents_best_mono :
    ∀ (evs : List Ev) (st : GameState), (∀ e ∈ evs, isNewRoundEv e = false) →
      ∀ l, st.bestSolution = some l →
        ∃ m, (runEvents st evs).bestSolution = some m ∧ m.length ≤ l.length ∧
          (m ≠ l → m.length < l.length) := by
  intro evs
  induction evs with
  | nil =>
    intro st _ l hb
    exact ⟨l, hb, le_refl _, fun h => absurd rfl h⟩
  | cons e es ih =>
    intro st hall l hb
    obtain ⟨m1, hm1, hle1, hlt1⟩ := step_best_mono st e (hall e (by simp)) l hb
    obtain ⟨m2, hm2, hle2, hlt2⟩ := ih (step st e) (fun x hx => hall x (by simp [hx])) m1 hm1
    refine ⟨m2, hm2, le_trans hle2 hle1, ?_⟩
    intro hne
    by_cases hm : m1 = l
    · subst hm
      exact lt_of_lt_of_le (hlt2 hne) hle1
    · exact lt_of_le_of_lt hle2 (hlt1 hm)

/-- C9: within a single round (no `newRound` event), once a best solution
is stored its move count never increases across any event sequence, and it
shrinks strictly whenever it is replaced. -/
theorem bestSolution_monotonic (st : GameState) (evs : List Ev)
    (hev : ∀ e ∈ evs, isNewRoundEv e = false) (l : List MoveAction)
    (hb : st.bestSolution = some l) :
    ∃ m, (runEvents st evs).bestSolution = some m ∧ m.length ≤ l.length ∧
      (m ≠ l → m.length < l.length) :=
  runEvents_best_mono evs st hev l hb

/-- Witness for C9: the concrete state with a stored one-move best
solution, followed by a selection and a completing keypress. -/
theorem bestSolution_monotonic_witness :
    ((∀ e ∈ [Ev.select Color.blue, Ev.key 1], isNewRoundEv e = false) ∧
      c9St.bestSolution =
        some [{ color := Color.blue, fromLoc := (0, 0), toLoc := (0, 1) }]) ∧
    ∃ m, (runEvents c9St [Ev.select Color.blue, Ev.key 1]).bestSolution = some m ∧
      m.length ≤ [(⟨Color.blue, (0, 0), (0, 1)⟩ : MoveAction)].length ∧
      (m ≠ [(⟨Color.blue, (0, 0), (0, 1)⟩ : MoveAction)] →
        m.length < [(⟨Color.blue, (0, 0), (0, 1)⟩ : MoveAction)].length) :=
  ⟨⟨by decide, by decide⟩,
    bestSolution_monotonic c9St [Ev.select Color.blue, Ev.key 1] (by decide) _ (by decide)⟩

/-! ### Occupancy coherence through generation -/

set_option maxRecDepth 1000000 in
theorem baseOk_hubGrid : BaseOk hubGrid := by
  unfold BaseOk
  decide

theorem baseOk_of_piece_eq {g g' : Grid}
    (hp : ∀ a b : Fin 16, (g' a b).piece = (g a b).piece) (h : BaseOk g) : BaseOk g' := by
  constructor
  · intro r c
    rw [hp]
    exact h.1 r c
  · intro p hpmem
    rw [hp]
    exact h.2 p hpmem

theorem getFreeCell_free :
    ∀ (fuel : Nat) (g : Grid) (r : Rng) (loc : Fin 16 × Fin 16) (r2 : Rng),
      getFreeCell fuel g r = some (loc, r2) → occupied (g loc.1 loc.2) = false := by
  intro fuel
  induction fuel with
  | zero =>
    intro g r loc r2 h
    exact absurd h (by rw [getFreeCell]; simp)
  | succ n ih =>
    intro g r loc r2 h
    rw [getFreeCell] at h
    simp only [Rng.next] at h
    split at h
    · exact ih g _ loc r2 h
    · next hocc =>
        have h2 := Option.some_inj.mp h
        injection h2 with h3 h4
        rw [← h3]
        dsimp only
        cases hX : occupied (g ⟨r.f r.ix % 16, Nat.mod_lt _ (by decide)⟩
            ⟨({ f := r.f, ix := r.ix + 1 } : Rng).f ({ f := r.f, ix := r.ix + 1 } : Rng).ix % 16,
              Nat.mod_lt _ (by decide)⟩) with
        | false => rfl
        | true => exact absurd hX hocc

theorem placePiece_ok {col : Color} {fuel : Nat} {s : Grid × Pieces × Rng}
    {out : Grid × Pieces × Rng} (h : placePiece col fuel s = some out)
    {placed : List Color} (hok : PlacedOk s.1 s.2.1 placed) (hnotin : col ∉ placed) :
    PlacedOk out.1 out.2.1 (placed ++ [col]) := by
  obtain ⟨g, ps, r⟩ := s
  unfold placePiece at h
  cases hf : getFreeCell fuel g r with
  | none =>
    rw [hf] at h
    exact absurd h (by simp)
  | some x =>
    obtain ⟨loc, r2⟩ := x
    rw [hf] at h
    dsimp only at h
    obtain rfl := Option.some_inj.mp h
    have hfree := getFreeCell_free fuel g r loc r2 hf
    have hemp : (g loc.1 loc.2).piece = Occ.empty := (occupied_eq_false_iff _).mp hfree
    obtain ⟨hA, hB, hC⟩ := hok
    dsimp only at hA hB hC ⊢
    refine ⟨?_, ?_, ?_⟩
    · intro col2 hcol2
      rcases List.mem_append.mp hcol2 with hin | hin
      · have hne : col2 ≠ col := fun hh => hnotin (hh ▸ hin)
        dsimp only
        rw [if_neg hne]
        have hcell := hA col2 hin
        have hne2 : ¬((ps col2).1 = loc.1 ∧ (ps col2).2 = loc.2) := by
          rintro ⟨he1, he2⟩
          rw [he1, he2] at hcell
          rw [hemp] at hcell
          exact Occ.noConfusion hcell
        rw [setPieceOcc_piece_ne _ _ _ _ hne2]
        exact hcell
      · have hcol : col2 = col := by simpa using hin
        subst hcol
        dsimp only
        rw [if_pos rfl]
        exact setPieceOcc_piece_self g loc.1 loc.2 (Occ.occ col2)
    · intro rr cc col2 hcell2
      by_cases hrc : rr = loc.1 ∧ cc = loc.2
      · obtain ⟨rfl, rfl⟩ := hrc
        rw [setPieceOcc_piece_self] at hcell2
        injection hcell2 with hcc
        subst hcc
        refine ⟨List.mem_append.mpr (Or.inr (by simp)), ?_⟩
        simp
      · rw [setPieceOcc_piece_ne _ _ _ _ hrc] at hcell2
        obtain ⟨hin, hloc⟩ := hB rr cc col2 hcell2
        have hne : col2 ≠ col := fun hh => hnotin (hh ▸ hin)
        refine ⟨List.mem_append.mpr (Or.inl hin), ?_⟩
        dsimp only
        rw [if_neg hne]
        exact hloc
    · intro p hpmem
      have hcell := hC p hpmem
      have hne2 : ¬(p.1 = loc.1 ∧ p.2 = loc.2) := by
        rintro ⟨he1, he2⟩
        rw [he1, he2] at hcell
        rw [hemp] at hcell
        exact Occ.noConfusion hcell
      rw [setPieceOcc_piece_ne _ _ _ _ hne2]
      exact hcell

theorem placePieces_ok {fuel : Nat} {s : Grid × Pieces × Rng} {out : Grid × Pieces × Rng}
    (h : placePieces fuel s = some out) (hok : PlacedOk s.1 s.2.1 []) :
    PlacedOk out.1 out.2.1 COLORS := by
  unfold placePieces at h
  cases h1 : placePiece Color.blue fuel s with
  | none => rw [h1] at h; exact absurd h (by simp)
  | some a1 =>
    rw [h1] at h
    simp only [Option.some_bind] at h
    cases h2 : placePiece Color.red fuel a1 with
    | none => rw [h2] at h; exact absurd h (by simp)
    | some a2 =>
      rw [h2] at h
      simp only [Option.some_bind] at h
      cases h3 : placePiece Color.green fuel a2 with
      | none => rw [h3] at h; exact absurd h (by simp)
      | some a3 =>
        rw [h3] at h
        simp only [Option.some_bind] at h
        have k1 := placePiece_ok h1 hok (by decide)
        have k2 := placePiece_ok h2 k1 (by decide)
        have k3 := placePiece_ok h3 k2 (by decide)
        have k4 := placePiece_ok h k3 (by decide)
        simpa using k4

theorem piecesOk_makeGameBoardState {fuel : Nat} {r0 : Rng} {st : GameState}
    (h : makeGameBoardState fuel r0 = some st) : PiecesOk st := by
  unfold makeGameBoardState at h
  cases hl : lPhase fuel (edgePhase (hubGrid, r0)) with
  | none => rw [hl] at h; exact absurd h (by simp)
  | some g2r2 =>
    obtain ⟨g2, r2⟩ := g2r2
    rw [hl] at h
    dsimp only at h
    cases hp : placePieces fuel (g2, (fun _ => ((0 : Fin 16), (0 : Fin 16))), r2) with
    | none => rw [hp] at h; exact absurd h (by simp)
    | some s3 =>
      obtain ⟨g3, ps, r3⟩ := s3
      rw [hp] at h
      dsimp only at h
      obtain rfl := Option.some_inj.mp h
      have hpp := (wallStep_trans (wallStep_edgePhase (hubGrid, r0))
        (wallStep_lPhase fuel _ _ hl)).2
      have hbase : BaseOk g2 := baseOk_of_piece_eq hpp baseOk_hubGrid
      have hok0 : PlacedOk g2 (fun _ => ((0 : Fin 16), (0 : Fin 16))) [] := by
        obtain ⟨hB1, hB2⟩ := hbase
        refine ⟨?_, ?_, ?_⟩
        · intro col hcol
          exact absurd hcol (List.not_mem_nil col)
        · intro rr cc col2 hc
          rcases hB1 rr cc with he | hbk
          · rw [he] at hc
            exact Occ.noConfusion hc
          · rw [hbk] at hc
            exact Occ.noConfusion hc
        · exact hB2
      exact placePieces_ok hp hok0

theorem piecesOk_congr {st st2 : GameState} (hB : st2.board = st.board)
    (hP : st2.pieces = st.pieces) (h : PiecesOk st) : PiecesOk st2 := by
  unfold PiecesOk at h ⊢
  rw [hB, hP]
  exact h

theorem color_mem_COLORS (c : Color) : c ∈ COLORS := by
  cases c <;> decide

theorem piecesOk_executeMove_slide (st : GameState) (c : Color) (d : Fin 4) (k : Nat)
    (hok : PiecesOk st)
    (hmt : getMaxTravelDistance st.board
      (((st.pieces c).1 : Int), ((st.pieces c).2 : Int)) d = some k)
    (dst : Fin 16 × Fin 16)
    (ht1 : (dst.1 : Int) = ((st.pieces c).1 : Int) + dr d * (k : Int))
    (ht2 : (dst.2 : Int) = ((st.pieces c).2 : Int) + dc d * (k : Int)) :
    PiecesOk (executeMove st { color := c, fromLoc := st.pieces c, toLoc := dst }) := by
  unfold PiecesOk PlacedOk at hok
  obtain ⟨hA, hB, hC⟩ := hok
  have hfrom : (st.board (st.pieces c).1 (st.pieces c).2).piece = Occ.occ c :=
    hA c (color_mem_COLORS c)
  rcases Nat.eq_zero_or_pos k with rfl | hk
  · have hto : dst = st.pieces c := by
      have e1 : (dst.1 : Int) = ((st.pieces c).1 : Int) := by
        rw [ht1]; simp
      have e2 : (dst.2 : Int) = ((st.pieces c).2 : Int) := by
        rw [ht2]; simp
      have f1 : dst.1 = (st.pieces c).1 := Fin.ext (by omega)
      have f2 : dst.2 = (st.pieces c).2 := Fin.ext (by omega)
      exact Prod.ext f1 f2
    subst hto
    have hself := @executeMove_self st
      { color := c, fromLoc := st.pieces c, toLoc := st.pieces c } rfl rfl hfrom
    exact piecesOk_congr hself.1 hself.2 ⟨hA, hB, hC⟩
  · have hmt2 : mtGo st.board ((st.pieces c).1 : Int) ((st.pieces c).2 : Int) d 1 16 = some k :=
      hmt
    have hpass := mtGo_pass 16 (le_refl 1) hmt2 k (by omega) (le_refl k)
    rw [← ht1, ← ht2] at hpass
    obtain ⟨cell, hcell2, hbord, hocc⟩ := slideBlocked_eq_false hpass
    rw [getCell_fin] at hcell2
    obtain rfl := Option.some_inj.mp hcell2
    have hempty : (st.board dst.1 dst.2).piece = Occ.empty := (occupied_eq_false_iff _).mp hocc
    have hneFT : ¬(dst.1 = (st.pieces c).1 ∧ dst.2 = (st.pieces c).2) := by
      rintro ⟨he1, he2⟩
      rw [he1] at ht1
      rw [he2] at ht2
      have hdr : dr d * (k : Int) = 0 := by omega
      have hdc : dc d * (k : Int) = 0 := by omega
      rcases mul_eq_zero.mp hdr with h | h
      · rcases mul_eq_zero.mp hdc with h2 | h2
        · exact dir_vec_ne_zero d ⟨h, h2⟩
        · omega
      · omega
    unfold PiecesOk PlacedOk
    refine ⟨?_, ?_, ?_⟩
    · intro col2 hmem2
      by_cases hc2 : col2 = c
      · subst hc2
        dsimp only [executeMove]
        rw [if_pos rfl]
        exact setPieceOcc_piece_self _ dst.1 dst.2 (Occ.occ col2)
      · dsimp only [executeMove]
        rw [if_neg hc2]
        have hcl := hA col2 hmem2
        have hneT : ¬((st.pieces col2).1 = dst.1 ∧ (st.pieces col2).2 = dst.2) := by
          rintro ⟨he1, he2⟩
          rw [he1, he2] at hcl
          rw [hempty] at hcl
          exact Occ.noConfusion hcl
        have hneF : ¬((st.pieces col2).1 = (st.pieces c).1 ∧
            (st.pieces col2).2 = (st.pieces c).2) := by
          rintro ⟨he1, he2⟩
          rw [he1, he2] at hcl
          rw [hfrom] at hcl
          injection hcl with hx
          exact hc2 hx.symm
        rw [setPieceOcc_piece_ne _ _ _ _ hneT, setPieceOcc_piece_ne _ _ _ _ hneF]
        exact hcl
    · intro rr cc col2 hcl
      dsimp only [executeMove] at hcl ⊢
      by_cases hT : rr = dst.1 ∧ cc = dst.2
      · obtain ⟨rfl, rfl⟩ := hT
        rw [setPieceOcc_piece_self] at hcl
        injection hcl with hx
        subst hx
        refine ⟨color_mem_COLORS _, ?_⟩
        rw [if_pos rfl]
      · rw [setPieceOcc_piece_ne _ _ _ _ hT] at hcl
        by_cases hF : rr = (st.pieces c).1 ∧ cc = (st.pieces c).2
        · obtain ⟨rfl, rfl⟩ := hF
          rw [setPieceOcc_piece_self] at hcl
          exact Occ.noConfusion hcl
        · rw [setPieceOcc_piece_ne _ _ _ _ hF] at hcl
          obtain ⟨hmem2, hloc2⟩ := hB rr cc col2 hcl
          have hc2 : col2 ≠ c := by
            rintro rfl
            exact hF ⟨by rw [hloc2], by rw [hloc2]⟩
          refine ⟨hmem2, ?_⟩
          rw [if_neg hc2]
          exact hloc2
    · intro p hpmem
      have hcellH := hC p hpmem
      dsimp only [executeMove]
      have hneT : ¬(p.1 = dst.1 ∧ p.2 = dst.2) := by
        rintro ⟨he1, he2⟩
        rw [he1, he2] at hcellH
        rw [hempty] at hcellH
        exact Occ.noConfusion hcellH
      have hneF : ¬(p.1 = (st.pieces c).1 ∧ p.2 = (st.pieces c).2) := by
        rintro ⟨he1, he2⟩
        rw [he1, he2] at hcellH
        rw [hfrom] at hcellH
        exact Occ.noConfusion hcellH
      rw [setPieceOcc_piece_ne _ _ _ _ hneT, setPieceOcc_piece_ne _ _ _ _ hneF]
      exact hcellH

theorem piecesOk_step (st : GameState) (e : Ev) (hs : isSlideEv e = true)
    (hok : PiecesOk st) : PiecesOk (step st e) := by
  cases e with
  | reset => exact Bool.noConfusion hs
  | newRound ra rb => exact Bool.noConfusion hs
  | select c => exact hok
  | key d =>
    cases hac : st.activeColor with
    | none =>
      simp only [step, stepKey, hac]
      exact hok
    | some c =>
      cases hmt : getMaxTravelDistance st.board
          (((st.pieces c).1 : Int), ((st.pieces c).2 : Int)) d with
      | none =>
        simp only [step, stepKey, hac, hmt]
        exact hok
      | some k =>
        simp only [step, stepKey, hac, hmt]
        split
        case isFalse h => exact hok
        case isTrue h =>
          have hm := piecesOk_executeMove_slide st c d k hok hmt
            (⟨((((st.pieces c).1 : Int)) + dr d * (k : Int)).toNat, by omega⟩,
             ⟨((((st.pieces c).2 : Int)) + dc d * (k : Int)).toNat, by omega⟩)
            (by
              show ((((((st.pieces c).1 : Int)) + dr d * (k : Int)).toNat : Nat) : Int) =
                (((st.pieces c).1 : Int)) + dr d * (k : Int)
              omega)
            (by
              show ((((((st.pieces c).2 : Int)) + dc d * (k : Int)).toNat : Nat) : Int) =
                (((st.pieces c).2 : Int)) + dc d * (k : Int)
              omega)
          split
          · exact piecesOk_congr rfl rfl hm
          · exact piecesOk_congr rfl rfl hm

theorem piecesOk_runEvents :
    ∀ (evs : List Ev) (st : GameState), (∀ e ∈ evs, isSlideEv e = true) →
      PiecesOk st → PiecesOk (runEvents st evs) := by
  intro evs
  induction evs with
  | nil =>
    intro st _ h
    exact h
  | cons e es ih =>
    intro st hall h
    exact ih (step st e) (fun x hx => hall x (by simp [hx]))
      (piecesOk_step st e (hall e (by simp)) h)

/-- C7: on every generated board, across every sequence of slide-phase
session events (piece selections and direction keys), no two pieces share
a cell and no piece sits on a hub cell. -/
theorem no_overlap_invariant (fuel : Nat) (r0 : Rng) (st : GameState)
    (hgen : makeGameBoardState fuel r0 = some st) (evs : List Ev)
    (hevs : ∀ e ∈ evs, isSlideEv e = true) :
    (∀ c1 c2 : Color, c1 ≠ c2 →
      (runEvents st evs).pieces c1 ≠ (runEvents st evs).pieces c2) ∧
    (∀ c : Color, (runEvents st evs).pieces c ∉ hubLocs) := by
  have hok := piecesOk_runEvents evs st hevs (piecesOk_makeGameBoardState hgen)
  unfold PiecesOk PlacedOk at hok
  obtain ⟨hA, hB, hC⟩ := hok
  constructor
  · intro c1 c2 hne he
    have h1 := hA c1 (color_mem_COLORS c1)
    have h2 := hA c2 (color_mem_COLORS c2)
    rw [he] at h1
    rw [h1] at h2
    injection h2 with h3
    exact hne h3
  · intro c hmem
    have h1 := hA c (color_mem_COLORS c)
    have h2 := hC _ hmem
    rw [h2] at h1
    exact Occ.noConfusion h1

/-- Witness for C7: the concrete generated board, with a selection and a
slide. -/
theorem no_overlap_invariant_witness :
    ∃ st, makeGameBoardState 4 wRng = some st ∧
      (∀ e ∈ [Ev.select Color.blue, Ev.key 1], isSlideEv e = true) ∧
      ((∀ c1 c2 : Color, c1 ≠ c2 →
        (runEvents st [Ev.select Color.blue, Ev.key 1]).pieces c1 ≠
          (runEvents st [Ev.select Color.blue, Ev.key 1]).pieces c2) ∧
        (∀ c : Color,
          (runEvents st [Ev.select Color.blue, Ev.key 1]).pieces c ∉ hubLocs)) := by
  have h := (Option.some_get gen_isSome).symm
  exact ⟨_, h, by decide, no_overlap_invariant 4 wRng _ h _ (by decide)⟩

end RicochetRobots
